import Mathlib

/-!
Verification development for the routing subsystem of the gdsfactory fork:
single-path waypoint synthesizers (`routing/route_sharp.py`) and the
side-bundle routers (`routing/route_ports_to_side.py`).

The source operates on IEEE floats; the embedding uses exact real numbers,
`numpy`'s `np.mod` as `a - b * ⌊a / b⌋` and `np.round(x, 3)` as rounding
half-to-even at the third decimal.  Angles are degrees, as in the source.
-/

namespace Routing

noncomputable section

open Real

/-- A 2D point / vector (`np.array([x, y])`). -/
abbrev Pt : Type := ℝ × ℝ

/-- `np.dot` for 2D vectors. -/
def dot (a b : Pt) : ℝ := a.1 * b.1 + a.2 * b.2

/-- Euclidean length of a 2D vector (segment length). -/
def vlen (v : Pt) : ℝ := Real.sqrt (v.1 ^ 2 + v.2 ^ 2)

/-- 2D cross product; two direction vectors are parallel iff it vanishes. -/
def cross (a b : Pt) : ℝ := a.1 * b.2 - a.2 * b.1

/-- `np.mod a b`: remainder with the sign of `b`, i.e. `a - b*floor(a/b)`. -/
def fmod (a b : ℝ) : ℝ := a - b * ⌊a / b⌋

/-- `numpy` rounding of a real to an integer: round half to even. -/
def roundHE (x : ℝ) : ℤ :=
  if Int.fract x = 1 / 2 then (if 2 ∣ ⌊x⌋ then ⌊x⌋ else ⌊x⌋ + 1) else round x

/-- `np.round(x, 3)`: round to three decimal places, ties to even. -/
def round3 (x : ℝ) : ℝ := (roundHE (x * 1000) : ℝ) / 1000

/-- Cosine of an angle given in degrees. -/
def cosd (θ : ℝ) : ℝ := Real.cos (θ * π / 180)

/-- Sine of an angle given in degrees. -/
def sind (θ : ℝ) : ℝ := Real.sin (θ * π / 180)

/-- Modelled from the spec: `_get_rotated_basis` is imported from
`gdsfactory/routing/route_quad.py`, which is not among the provided sources;
spec §4.1 defines it as `forward = (cos θ, sin θ)`, `left = (-sin θ, cos θ)`
with `θ` the orientation in degrees converted to radians. -/
def rotatedBasis (θ : ℝ) : Pt × Pt := ((cosd θ, sind θ), (-sind θ, cosd θ))

/-- An oriented connection point (`gdsfactory.port.Port`): named position with
a direction angle in degrees and a width.  Only the fields the routing code
reads are modelled. -/
structure Port where
  name : String
  center : Pt
  orientation : ℝ
  width : ℝ

/-- `port.x` accessor. -/
def Port.x (p : Port) : ℝ := p.center.1

/-- `port.y` accessor. -/
def Port.y (p : Port) : ℝ := p.center.2

/-- Errors raised by the single-path synthesizers: `ValueError` on a violated
orientation precondition, `numpy.linalg.LinAlgError` on a singular system. -/
inductive PathErr where
  | invalidPortGeometry : PathErr
  | singularMatrix : PathErr
  deriving DecidableEq

/-- The rounded relative-orientation quantity
`np.round(np.abs(np.mod(port1.orientation - port2.orientation, 360)), 3)`
used by the synthesizers' precondition checks. -/
def deltaOrientation (port1 port2 : Port) : ℝ :=
  round3 |fmod (port1.orientation - port2.orientation) 360|

/-- `np.round(np.dot(port2.center - port1.center, e1), 3)`: rounded forward
component of the displacement in `port1`'s basis. -/
def xrelOf (port1 port2 : Port) : ℝ :=
  round3 (dot (port2.center - port1.center) (rotatedBasis port1.orientation).1)

/-- `np.round(np.dot(port2.center - port1.center, e2), 3)`: rounded lateral
component of the displacement in `port1`'s basis. -/
def yrelOf (port1 port2 : Port) : ℝ :=
  round3 (dot (port2.center - port1.center) (rotatedBasis port1.orientation).2)

/-- `np.round(np.abs(np.mod(port2.orientation - port1.orientation, 360)), 3)`:
the relative orientation used by `path_manhattan`. -/
def orelOf (port1 port2 : Port) : ℝ :=
  round3 |fmod (port2.orientation - port1.orientation) 360|

/-- `path_straight(port1, port2)`: straight 2-point waypoint path; raises
unless the ports point directly at each other. -/
def path_straight (port1 port2 : Port) : Except PathErr (List Pt) :=
  let delta := deltaOrientation port1 port2
  if ¬(delta = 0 ∨ delta = 180 ∨ delta = 360) ∨ yrelOf port1 port2 ≠ 0 ∨
      xrelOf port1 port2 ≤ 0 then
    .error .invalidPortGeometry
  else
    .ok [port1.center, port2.center]

/-- `path_L(port1, port2)`: 3-point L-shaped path for orthogonal ports. -/
def path_L (port1 port2 : Port) : Except PathErr (List Pt) :=
  let delta := deltaOrientation port1 port2
  if ¬(delta = 90 ∨ delta = 270) then .error .invalidPortGeometry
  else
    let e := rotatedBasis port1.orientation
    let pt1 := port1.center
    let pt3 := port2.center
    let deltaVec := pt3 - pt1
    let pt2 := pt1 + dot deltaVec e.1 • e.1
    .ok [pt1, pt2, pt3]

/-- `path_U(port1, port2, length1=200)`: 4-point U-shaped path for parallel
ports. -/
def path_U (port1 port2 : Port) (length1 : ℝ := 200) : Except PathErr (List Pt) :=
  let delta := deltaOrientation port1 port2
  if ¬(delta = 0 ∨ delta = 180 ∨ delta = 360) then .error .invalidPortGeometry
  else
    let θ := port1.orientation * π / 180
    let e1 : Pt := (Real.cos θ, Real.sin θ)
    let e2 : Pt := (-1 * Real.sin θ, Real.cos θ)
    let pt1 := port1.center
    let pt4 := port2.center
    let pt2 := pt1 + length1 • e1
    let deltaVec := pt4 - pt2
    let pt3 := pt2 + dot deltaVec e2 • e2
    .ok [pt1, pt2, pt3, pt4]

/-- `path_J(port1, port2, length1=200, length2=200)`: 5-point J-shaped path
for orthogonal ports that cannot be connected by an L. -/
def path_J (port1 port2 : Port) (length1 : ℝ := 200) (length2 : ℝ := 200) :
    Except PathErr (List Pt) :=
  let delta := deltaOrientation port1 port2
  if ¬(delta = 90 ∨ delta = 270) then .error .invalidPortGeometry
  else
    let e1 := (rotatedBasis port1.orientation).1
    let e2 := (rotatedBasis port2.orientation).1
    let pt1 := port1.center
    let pt2 := pt1 + length1 • e1
    let pt5 := port2.center
    let pt4 := pt5 + length2 • e2
    let deltaVec := pt4 - pt2
    let pt3 := pt2 + dot deltaVec e2 • e2
    .ok [pt1, pt2, pt3, pt4, pt5]

/-- `path_C(port1, port2, length1=100, left1=100, length2=100)`: 6-point
C-shaped path for parallel ports. -/
def path_C (port1 port2 : Port) (length1 : ℝ := 100) (left1 : ℝ := 100)
    (length2 : ℝ := 100) : Except PathErr (List Pt) :=
  let delta := deltaOrientation port1 port2
  if ¬(delta = 0 ∨ delta = 180 ∨ delta = 360) then .error .invalidPortGeometry
  else
    let b1 := rotatedBasis port1.orientation
    let e1 := b1.1
    let eLeft := b1.2
    let e2 := (rotatedBasis port2.orientation).1
    let pt1 := port1.center
    let pt2 := pt1 + length1 • e1
    let pt3 := pt2 + left1 • eLeft
    let pt6 := port2.center
    let pt5 := pt6 + length2 • e2
    let deltaVec := pt5 - pt3
    let pt4 := pt3 + dot deltaVec e1 • e1
    .ok [pt1, pt2, pt3, pt4, pt5, pt6]

/-- `path_Z(port1, port2, length1=100, length2=100)`: 4-point Z-shaped path,
any relative orientation, never raises. -/
def path_Z (port1 port2 : Port) (length1 : ℝ := 100) (length2 : ℝ := 100) :
    List Pt :=
  let e1 := (rotatedBasis port1.orientation).1
  let e2 := (rotatedBasis port2.orientation).1
  let pt1 := port1.center
  let pt2 := pt1 + length1 • e1
  let pt4 := port2.center
  let pt3 := pt4 + length2 • e2
  [pt1, pt2, pt3, pt4]

/-- `path_V(port1, port2)`: 3-point V-shaped path through the intersection of
the two forward axes; `np.linalg.inv` raises on a singular system. -/
def path_V (port1 port2 : Port) : Except PathErr (List Pt) :=
  let e1 := (rotatedBasis port1.orientation).1
  let e2 := (rotatedBasis port2.orientation).1
  let pt1 := port1.center
  let pt3 := port2.center
  let det := e1.1 * (-1 * e2.2) - (-1 * e2.1) * e1.2
  if det = 0 then .error .singularMatrix
  else
    let u := pt3 - pt1
    let t := ((-1 * e2.2) * u.1 + e2.1 * u.2) / det
    .ok [pt1, pt1 + t • e1, pt3]

/-- `path_manhattan(port1, port2, radius)`: decision procedure selecting
among straight/L/J/C/U, with an effective radius of `radius + 0.1`. -/
def path_manhattan (port1 port2 : Port) (radius0 : ℝ) : Except PathErr (List Pt) :=
  let radius := radius0 + 0.1
  let xrel := xrelOf port1 port2
  let yrel := yrelOf port1 port2
  let orel := orelOf port1 port2
  if ¬(orel = 0 ∨ orel = 90 ∨ orel = 180 ∨ orel = 270 ∨ orel = 360) then
    .error .invalidPortGeometry
  else if orel = 90 ∨ orel = 270 then
    if ((orel = 90 ∧ yrel < -1 * radius) ∨ (orel = 270 ∧ yrel > radius)) ∧
        xrel > radius then
      path_L port1 port2
    else
      let direction : ℝ := if orel = 270 then -1 else 1
      let length2 :=
        if |radius + direction * yrel| < 2 * radius then
          2 * radius - direction * yrel
        else radius
      let length1 :=
        if |radius - xrel| < 2 * radius then 2 * radius + xrel else radius
      path_J port1 port2 length1 length2
  else if orel = 180 ∧ yrel = 0 ∧ xrel > 0 then
    path_straight port1 port2
  else if (orel = 180 ∧ xrel ≤ 2 * radius) ∨ |yrel| < 2 * radius then
    let left1a := if |yrel| < 4 * radius then |yrel| + 2 * radius else 2 * radius
    let yDirection : ℝ := if yrel < 0 then -1 else 1
    let left1 := yDirection * left1a
    let length2 := radius
    let xDirection : ℝ := if orel = 180 then -1 else 1
    let segmentxLength := |xrel + xDirection * length2 - radius|
    let length1 :=
      if segmentxLength < 2 * radius then xrel + xDirection * length2 + 2 * radius
      else radius
    path_C port1 port2 length1 left1 length2
  else
    let length1 := if orel = 0 ∧ xrel > 0 then radius + xrel else radius
    path_U port1 port2 length1

/-- The optional keyword arguments (`**kwargs`) that `route_sharp` forwards
to the waypoint functions. -/
structure SharpKwargs where
  length1 : Option ℝ := none
  length2 : Option ℝ := none
  left1 : Option ℝ := none
  radius : Option ℝ := none

/-- Errors of the `route_sharp` dispatch: a synthesizer error, a Python
`TypeError` (keyword not accepted by the selected waypoint function, or a
missing `manual_path`), or the final `ValueError` for an unknown
`path_type`. -/
inductive SharpErr where
  | pathErr : PathErr → SharpErr
  | typeErr : SharpErr
  | invalidPathType : SharpErr
  deriving DecidableEq

/-- The waypoint-selection stage of `route_sharp` (the `path_type` dispatch).
The subsequent extrusion of the waypoint path delegates to the external
geometry backend (`Path.extrude` / `CrossSection`) and is not modelled.
Python `**kwargs` is modelled by `SharpKwargs`; passing a keyword the
selected waypoint function does not accept is a `TypeError`.  For
`path_type="manhattan"` the source ignores `kwargs` entirely and calls
`path_manhattan(port1, port2, radius=max(port1.width, port2.width))`. -/
def route_sharp_path (port1 port2 : Port) (path_type : String)
    (manual_path : Option (List Pt)) (kw : SharpKwargs) :
    Except SharpErr (List Pt) :=
  match path_type with
  | "C" =>
      if kw.radius.isSome then .error .typeErr
      else (path_C port1 port2 (kw.length1.getD 100) (kw.left1.getD 100)
        (kw.length2.getD 100)).mapError .pathErr
  | "J" =>
      if kw.radius.isSome ∨ kw.left1.isSome then .error .typeErr
      else (path_J port1 port2 (kw.length1.getD 200)
        (kw.length2.getD 200)).mapError .pathErr
  | "L" =>
      if kw.radius.isSome ∨ kw.left1.isSome ∨ kw.length1.isSome ∨
          kw.length2.isSome then .error .typeErr
      else (path_L port1 port2).mapError .pathErr
  | "U" =>
      if kw.radius.isSome ∨ kw.left1.isSome ∨ kw.length2.isSome then
        .error .typeErr
      else (path_U port1 port2 (kw.length1.getD 200)).mapError .pathErr
  | "V" =>
      if kw.radius.isSome ∨ kw.left1.isSome ∨ kw.length1.isSome ∨
          kw.length2.isSome then .error .typeErr
      else (path_V port1 port2).mapError .pathErr
  | "Z" =>
      if kw.radius.isSome ∨ kw.left1.isSome then .error .typeErr
      else .ok (path_Z port1 port2 (kw.length1.getD 100) (kw.length2.getD 100))
  | "manhattan" =>
      (path_manhattan port1 port2 (max port1.width port2.width)).mapError .pathErr
  | "straight" =>
      if kw.radius.isSome ∨ kw.left1.isSome ∨ kw.length1.isSome ∨
          kw.length2.isSome then .error .typeErr
      else (path_straight port1 port2).mapError .pathErr
  | "manual" =>
      if kw.radius.isSome ∨ kw.left1.isSome ∨ kw.length1.isSome ∨
          kw.length2.isSome then .error .typeErr
      else
        match manual_path with
        | some p => .ok p
        | none => .error .typeErr
  | _ => .error .invalidPathType

/-- The waypoint path returned a fixed number of points (trivially true on a
precondition failure). -/
def okLength (r : Except PathErr (List Pt)) (n : ℕ) : Prop :=
  match r with
  | .ok pts => pts.length = n
  | .error _ => True

/-- Vector from waypoint `i` to waypoint `i+1` of a path. -/
def seg (pts : List Pt) (i : ℕ) : Pt := pts.getD (i + 1) 0 - pts.getD i 0

/-- All intermediate segments (those touching neither end point) of a
waypoint path have length at least `r`. -/
def interSegsGE (pts : List Pt) (r : ℝ) : Prop :=
  ∀ i : ℕ, 1 ≤ i → i + 3 ≤ pts.length → r ≤ vlen (seg pts i)

end

open Real

/-! ### Arithmetic facts about the embedded numpy primitives -/

theorem roundHE_abs_sub (x : ℝ) : |(roundHE x : ℝ) - x| ≤ 1 / 2 := by
  unfold roundHE
  by_cases h : Int.fract x = 1 / 2
  · rw [if_pos h]
    have hx : (⌊x⌋ : ℝ) = x - 1 / 2 := by
      have h0 := Int.floor_add_fract x
      rw [h] at h0
      linarith
    by_cases h2 : (2 : ℤ) ∣ ⌊x⌋
    · rw [if_pos h2, abs_le]
      constructor <;> linarith
    · rw [if_neg h2]
      push_cast
      rw [abs_le]
      constructor <;> linarith
  · rw [if_neg h]
    have := abs_sub_round x
    rw [abs_sub_comm] at this
    exact this

theorem round3_abs_sub (x : ℝ) : |round3 x - x| ≤ 1 / 2000 := by
  unfold round3
  have h := roundHE_abs_sub (x * 1000)
  rw [abs_le] at h ⊢
  constructor <;> [linarith [h.1]; linarith [h.2]]

theorem round3_intCast (n : ℤ) : round3 (n : ℝ) = n := by
  unfold round3 roundHE
  have h1 : (n : ℝ) * 1000 = ((n * 1000 : ℤ) : ℝ) := by push_cast; ring
  rw [h1, Int.fract_intCast, round_intCast]
  rw [if_neg (by norm_num : ¬(0 : ℝ) = 1 / 2)]
  push_cast
  ring

theorem round3_eq_div (x : ℝ) (n : ℤ) (h1 : (n : ℝ) - 1 / 2 < x * 1000)
    (h2 : x * 1000 < (n : ℝ) + 1 / 2) : round3 x = (n : ℝ) / 1000 := by
  have hne : Int.fract (x * 1000) ≠ 1 / 2 := by
    intro hf
    have hx : x * 1000 = (⌊x * 1000⌋ : ℝ) + 1 / 2 := by
      have h0 := Int.floor_add_fract (x * 1000)
      rw [hf] at h0
      linarith
    have hlt : (⌊x * 1000⌋ : ℝ) < n := by linarith
    have hge : (n : ℝ) ≤ (⌊x * 1000⌋ : ℝ) + 1 := by linarith
    have hlt' : ⌊x * 1000⌋ < n := by exact_mod_cast hlt
    have hge' : n ≤ ⌊x * 1000⌋ + 1 := by exact_mod_cast hge
    have hn1 : n = ⌊x * 1000⌋ + 1 := by omega
    rw [hn1] at h1
    push_cast at h1
    linarith
  have hr : round (x * 1000) = n := by
    rw [round_eq, Int.floor_eq_iff]
    refine ⟨by push_cast; linarith, by push_cast; linarith⟩
  unfold round3 roundHE
  rw [if_neg hne, hr]

theorem fmod_eq (a b : ℝ) (q : ℤ) (hb : 0 < b) (h1 : (q : ℝ) * b ≤ a)
    (h2 : a < (q : ℝ) * b + b) : fmod a b = a - b * q := by
  unfold fmod
  have hf : ⌊a / b⌋ = q := by
    rw [Int.floor_eq_iff]
    constructor
    · rw [le_div_iff hb]
      linarith
    · rw [div_lt_iff hb]
      push_cast
      linarith
  rw [hf]

/-! ### Trigonometric values at and around the cardinal directions -/

theorem cosd_sq_add_sind_sq (θ : ℝ) : cosd θ ^ 2 + sind θ ^ 2 = 1 :=
  Real.cos_sq_add_sin_sq _

theorem cosd_zero : cosd 0 = 1 := by simp [cosd]

theorem sind_zero : sind 0 = 0 := by simp [sind]

theorem cosd_90 : cosd 90 = 0 := by
  unfold cosd
  rw [show (90 : ℝ) * π / 180 = π / 2 by ring, Real.cos_pi_div_two]

theorem sind_90 : sind 90 = 1 := by
  unfold sind
  rw [show (90 : ℝ) * π / 180 = π / 2 by ring, Real.sin_pi_div_two]

theorem cosd_180 : cosd 180 = -1 := by
  unfold cosd
  rw [show (180 : ℝ) * π / 180 = π by ring, Real.cos_pi]

theorem sind_180 : sind 180 = 0 := by
  unfold sind
  rw [show (180 : ℝ) * π / 180 = π by ring, Real.sin_pi]

theorem cosd_270 : cosd 270 = 0 := by
  unfold cosd
  rw [show (270 : ℝ) * π / 180 = π + π / 2 by ring, Real.cos_add,
    Real.cos_pi_div_two, Real.sin_pi_div_two, Real.cos_pi, Real.sin_pi]
  ring

theorem sind_270 : sind 270 = -1 := by
  unfold sind
  rw [show (270 : ℝ) * π / 180 = π + π / 2 by ring, Real.sin_add,
    Real.cos_pi_div_two, Real.sin_pi_div_two, Real.cos_pi, Real.sin_pi]
  ring

theorem cosd_add_90 (θ : ℝ) : cosd (θ + 90) = -sind θ := by
  unfold cosd sind
  rw [show (θ + 90) * π / 180 = θ * π / 180 + π / 2 by ring,
    Real.cos_add, Real.cos_pi_div_two, Real.sin_pi_div_two]
  ring

theorem sind_add_90 (θ : ℝ) : sind (θ + 90) = cosd θ := by
  unfold cosd sind
  rw [show (θ + 90) * π / 180 = θ * π / 180 + π / 2 by ring,
    Real.sin_add, Real.cos_pi_div_two, Real.sin_pi_div_two]
  ring

theorem cosd_add_180 (θ : ℝ) : cosd (θ + 180) = -cosd θ := by
  unfold cosd
  rw [show (θ + 180) * π / 180 = θ * π / 180 + π by ring,
    Real.cos_add, Real.cos_pi, Real.sin_pi]
  ring

theorem sind_add_180 (θ : ℝ) : sind (θ + 180) = -sind θ := by
  unfold sind
  rw [show (θ + 180) * π / 180 = θ * π / 180 + π by ring,
    Real.sin_add, Real.cos_pi, Real.sin_pi]
  ring

theorem cosd_add_270 (θ : ℝ) : cosd (θ + 270) = sind θ := by
  rw [show θ + 270 = θ + 90 + 180 by ring, cosd_add_180, cosd_add_90]
  ring

theorem sind_add_270 (θ : ℝ) : sind (θ + 270) = -cosd θ := by
  rw [show θ + 270 = θ + 90 + 180 by ring, sind_add_180, sind_add_90]

theorem cosd_add_int_mul_360 (θ : ℝ) (k : ℤ) : cosd (θ + 360 * k) = cosd θ := by
  unfold cosd
  rw [show (θ + 360 * (k : ℝ)) * π / 180 = θ * π / 180 + (k : ℝ) * (2 * π) by ring]
  exact Real.cos_add_int_mul_two_pi _ k

theorem sind_add_int_mul_360 (θ : ℝ) (k : ℤ) : sind (θ + 360 * k) = sind θ := by
  unfold sind
  rw [show (θ + 360 * (k : ℝ)) * π / 180 = θ * π / 180 + (k : ℝ) * (2 * π) by ring]
  exact Real.sin_add_int_mul_two_pi _ k

/-! ### Length of a vector expressed in a port's rotated basis -/

theorem vlen_smul_fwd (θ t : ℝ) : vlen (t • ((cosd θ, sind θ) : Pt)) = |t| := by
  unfold vlen
  have h : (t • ((cosd θ, sind θ) : Pt)).1 ^ 2 + (t • ((cosd θ, sind θ) : Pt)).2 ^ 2
      = t ^ 2 := by
    have hp := cosd_sq_add_sind_sq θ
    simp [Prod.smul_def, smul_eq_mul]
    nlinarith [hp]
  rw [h, Real.sqrt_sq_eq_abs]

theorem vlen_smul_left (θ t : ℝ) : vlen (t • ((-sind θ, cosd θ) : Pt)) = |t| := by
  unfold vlen
  have h : (t • ((-sind θ, cosd θ) : Pt)).1 ^ 2 + (t • ((-sind θ, cosd θ) : Pt)).2 ^ 2
      = t ^ 2 := by
    have hp := cosd_sq_add_sind_sq θ
    simp [Prod.smul_def, smul_eq_mul]
    nlinarith [hp]
  rw [h, Real.sqrt_sq_eq_abs]

/-! ### Quarter-turn helpers for the manhattan feasibility proof -/

theorem round3_fmod_90 (q j : ℤ) (h0 : 0 ≤ j) (h4 : j < 4) :
    round3 |fmod (90 * ((4 * q + j : ℤ) : ℝ)) 360| = 90 * (j : ℝ) := by
  have hj0 : (0 : ℝ) ≤ (j : ℝ) := by exact_mod_cast h0
  have hj4 : (j : ℝ) < 4 := by exact_mod_cast h4
  have hf : fmod (90 * ((4 * q + j : ℤ) : ℝ)) 360 = 90 * (j : ℝ) := by
    have h := fmod_eq (90 * ((4 * q + j : ℤ) : ℝ)) 360 q (by norm_num)
      (by push_cast; nlinarith) (by push_cast; nlinarith)
    rw [h]
    push_cast
    ring
  rw [hf, abs_of_nonneg (by nlinarith),
    show (90 : ℝ) * (j : ℝ) = ((90 * j : ℤ) : ℝ) by push_cast; ring,
    round3_intCast]

theorem cosd_shift (θ : ℝ) (q j : ℤ) :
    cosd (θ + 90 * ((4 * q + j : ℤ) : ℝ)) = cosd (θ + 90 * (j : ℝ)) := by
  rw [show θ + 90 * ((4 * q + j : ℤ) : ℝ) =
    θ + 90 * (j : ℝ) + 360 * (q : ℝ) by push_cast; ring]
  exact cosd_add_int_mul_360 (θ + 90 * (j : ℝ)) q

theorem sind_shift (θ : ℝ) (q j : ℤ) :
    sind (θ + 90 * ((4 * q + j : ℤ) : ℝ)) = sind (θ + 90 * (j : ℝ)) := by
  rw [show θ + 90 * ((4 * q + j : ℤ) : ℝ) =
    θ + 90 * (j : ℝ) + 360 * (q : ℝ) by push_cast; ring]
  exact sind_add_int_mul_360 (θ + 90 * (j : ℝ)) q

theorem vlen_abs_f (θ t : ℝ) (v : Pt) (h1 : v.1 = t * cosd θ)
    (h2 : v.2 = t * sind θ) : vlen v = |t| := by
  have hv : v = t • ((cosd θ, sind θ) : Pt) := by
    rw [Prod.ext_iff]
    constructor
    · simpa [Prod.smul_mk, smul_eq_mul] using h1
    · simpa [Prod.smul_mk, smul_eq_mul] using h2
  rw [hv, vlen_smul_fwd]

theorem vlen_abs_l (θ t : ℝ) (v : Pt) (h1 : v.1 = t * -sind θ)
    (h2 : v.2 = t * cosd θ) : vlen v = |t| := by
  have hv : v = t • ((-sind θ, cosd θ) : Pt) := by
    rw [Prod.ext_iff]
    constructor
    · simpa [Prod.smul_mk, smul_eq_mul] using h1
    · simpa [Prod.smul_mk, smul_eq_mul] using h2
  rw [hv, vlen_smul_left]

theorem interSegsGE_short (pts : List Pt) (r : ℝ) (h : pts.length ≤ 3) :
    interSegsGE pts r := by
  intro i h1 h2
  omega

theorem le_abs_left (a b : ℝ) (h : a ≤ b) : a ≤ |b| := h.trans (le_abs_self b)

theorem le_abs_right (a b : ℝ) (h : a ≤ -b) : a ≤ |b| := h.trans (neg_le_abs b)

/-! ### Dot-product algebra over the rotated orthonormal basis -/

theorem dot_add_left (a b w : Pt) : dot (a + b) w = dot a w + dot b w := by
  simp only [dot, Prod.fst_add, Prod.snd_add]
  ring

theorem dot_sub_left (a b w : Pt) : dot (a - b) w = dot a w - dot b w := by
  simp only [dot, Prod.fst_sub, Prod.snd_sub]
  ring

theorem dot_smul_left (t : ℝ) (a w : Pt) : dot (t • a) w = t * dot a w := by
  simp only [dot, Prod.smul_fst, Prod.smul_snd, smul_eq_mul]
  ring

theorem dot_neg_right (a w : Pt) : dot a (-w) = -dot a w := by
  simp only [dot, Prod.fst_neg, Prod.snd_neg]
  ring

theorem dot_ff (θ : ℝ) :
    dot ((cosd θ, sind θ) : Pt) ((cosd θ, sind θ) : Pt) = 1 := by
  show cosd θ * cosd θ + sind θ * sind θ = 1
  linear_combination cosd_sq_add_sind_sq θ

theorem dot_ll (θ : ℝ) :
    dot ((-sind θ, cosd θ) : Pt) ((-sind θ, cosd θ) : Pt) = 1 := by
  show -sind θ * -sind θ + cosd θ * cosd θ = 1
  linear_combination cosd_sq_add_sind_sq θ

theorem dot_fl (θ : ℝ) :
    dot ((cosd θ, sind θ) : Pt) ((-sind θ, cosd θ) : Pt) = 0 := by
  show cosd θ * -sind θ + sind θ * cosd θ = 0
  ring

theorem dot_lf (θ : ℝ) :
    dot ((-sind θ, cosd θ) : Pt) ((cosd θ, sind θ) : Pt) = 0 := by
  show -sind θ * cosd θ + cosd θ * sind θ = 0
  ring

/-- Decomposition of a vector in the orthonormal basis attached to a port of
orientation `θ`. -/
theorem basis_decomp (θ : ℝ) (u : Pt) :
    dot u ((cosd θ, sind θ) : Pt) • ((cosd θ, sind θ) : Pt)
      + dot u ((-sind θ, cosd θ) : Pt) • ((-sind θ, cosd θ) : Pt) = u := by
  obtain ⟨u1, u2⟩ := u
  have hp := cosd_sq_add_sind_sq θ
  rw [Prod.ext_iff]
  constructor
  · show (u1 * cosd θ + u2 * sind θ) * cosd θ
      + (u1 * -sind θ + u2 * cosd θ) * -sind θ = u1
    linear_combination u1 * hp
  · show (u1 * cosd θ + u2 * sind θ) * sind θ
      + (u1 * -sind θ + u2 * cosd θ) * cosd θ = u2
    linear_combination u2 * hp

theorem vlen_neg (v : Pt) : vlen (-v) = vlen v := by
  simp [vlen, Prod.fst_neg, Prod.snd_neg, neg_sq]

/-- `delta_orientation` of two ports whose orientations differ by an exact
quarter-turn multiple. -/
theorem delta_quarter (p1 p2 : Port) (q j' : ℤ) (h0 : 0 ≤ j') (h4 : j' < 4)
    (hsub : p1.orientation - p2.orientation = 90 * ((4 * q + j' : ℤ) : ℝ)) :
    deltaOrientation p1 p2 = 90 * (j' : ℝ) := by
  rw [deltaOrientation, hsub, round3_fmod_90 q j' h0 h4]

/-- J-path success and intermediate-segment lengths when `port2`'s forward
axis is `port1`'s left axis (relative orientation exactly +90 mod 360). -/
theorem path_J_inter_90 (p1 p2 : Port) (q : ℤ) (L1 L2 r : ℝ)
    (hor : p2.orientation = p1.orientation + 90 * ((4 * q + 1 : ℤ) : ℝ))
    (hb1 : r ≤ |dot (p2.center - p1.center)
      ((-sind p1.orientation, cosd p1.orientation) : Pt) + L2|)
    (hb2 : r ≤ |dot (p2.center - p1.center)
      ((cosd p1.orientation, sind p1.orientation) : Pt) - L1|) :
    ∃ pts, path_J p1 p2 L1 L2 = .ok pts ∧ interSegsGE pts r := by
  have hdelta : deltaOrientation p1 p2 = 270 := by
    have h := delta_quarter p1 p2 (-q - 1) 3 (by norm_num) (by norm_num)
      (by rw [hor]; push_cast; ring)
    rw [h]; norm_num
  have hc : cosd p2.orientation = -sind p1.orientation := by
    rw [hor, cosd_shift, show p1.orientation + 90 * ((1 : ℤ) : ℝ)
      = p1.orientation + 90 by norm_num, cosd_add_90]
  have hs : sind p2.orientation = cosd p1.orientation := by
    rw [hor, sind_shift, show p1.orientation + 90 * ((1 : ℤ) : ℝ)
      = p1.orientation + 90 by norm_num, sind_add_90]
  have hb : (rotatedBasis p2.orientation).1
      = ((-sind p1.orientation, cosd p1.orientation) : Pt) := by
    show (cosd p2.orientation, sind p2.orientation) = _
    rw [hc, hs]
  have he1 : (rotatedBasis p1.orientation).1
      = ((cosd p1.orientation, sind p1.orientation) : Pt) := rfl
  simp only [path_J]
  simp only [hdelta]
  rw [if_neg (by norm_num), he1, hb]
  have hD : dot (p2.center + L2 • ((-sind p1.orientation, cosd p1.orientation) : Pt)
      - (p1.center + L1 • ((cosd p1.orientation, sind p1.orientation) : Pt)))
      ((-sind p1.orientation, cosd p1.orientation) : Pt)
      = dot (p2.center - p1.center)
        ((-sind p1.orientation, cosd p1.orientation) : Pt) + L2 := by
    rw [show p2.center + L2 • ((-sind p1.orientation, cosd p1.orientation) : Pt)
        - (p1.center + L1 • ((cosd p1.orientation, sind p1.orientation) : Pt))
        = (p2.center - p1.center)
          + L2 • ((-sind p1.orientation, cosd p1.orientation) : Pt)
          - L1 • ((cosd p1.orientation, sind p1.orientation) : Pt) from by module,
      dot_sub_left, dot_add_left, dot_smul_left, dot_smul_left, dot_ll, dot_fl]
    ring
  rw [hD]
  set Xv := dot (p2.center - p1.center)
    ((cosd p1.orientation, sind p1.orientation) : Pt) with hXv
  set Yv := dot (p2.center - p1.center)
    ((-sind p1.orientation, cosd p1.orientation) : Pt) with hYv
  have hdec := basis_decomp p1.orientation (p2.center - p1.center)
  rw [← hXv, ← hYv] at hdec
  refine ⟨_, rfl, ?_⟩
  intro i hi1 hi2
  simp only [List.length_cons, List.length_nil] at hi2
  have hi : i = 1 ∨ i = 2 := by omega
  rcases hi with hi | hi <;> subst hi
  · show r ≤ vlen ((p1.center
      + L1 • ((cosd p1.orientation, sind p1.orientation) : Pt)
      + (Yv + L2) • ((-sind p1.orientation, cosd p1.orientation) : Pt))
      - (p1.center + L1 • ((cosd p1.orientation, sind p1.orientation) : Pt)))
    rw [add_sub_cancel_left, vlen_smul_left]
    exact hb1
  · show r ≤ vlen ((p2.center
      + L2 • ((-sind p1.orientation, cosd p1.orientation) : Pt))
      - (p1.center + L1 • ((cosd p1.orientation, sind p1.orientation) : Pt)
        + (Yv + L2) • ((-sind p1.orientation, cosd p1.orientation) : Pt)))
    rw [show (p2.center + L2 • ((-sind p1.orientation, cosd p1.orientation) : Pt))
        - (p1.center + L1 • ((cosd p1.orientation, sind p1.orientation) : Pt)
          + (Yv + L2) • ((-sind p1.orientation, cosd p1.orientation) : Pt))
        = ((p2.center - p1.center)
          - Yv • ((-sind p1.orientation, cosd p1.orientation) : Pt))
          - L1 • ((cosd p1.orientation, sind p1.orientation) : Pt) from by module,
      ← hdec,
      show ((Xv • ((cosd p1.orientation, sind p1.orientation) : Pt)
          + Yv • ((-sind p1.orientation, cosd p1.orientation) : Pt))
          - Yv • ((-sind p1.orientation, cosd p1.orientation) : Pt))
          - L1 • ((cosd p1.orientation, sind p1.orientation) : Pt)
        = (Xv - L1) • ((cosd p1.orientation, sind p1.orientation) : Pt) from by module,
      vlen_smul_fwd]
    exact hb2

/-- J-path success and intermediate-segment lengths when `port2`'s forward
axis is the negation of `port1`'s left axis (relative orientation exactly
+270 mod 360). -/
theorem path_J_inter_270 (p1 p2 : Port) (q : ℤ) (L1 L2 r : ℝ)
    (hor : p2.orientation = p1.orientation + 90 * ((4 * q + 3 : ℤ) : ℝ))
    (hb1 : r ≤ |L2 - dot (p2.center - p1.center)
      ((-sind p1.orientation, cosd p1.orientation) : Pt)|)
    (hb2 : r ≤ |dot (p2.center - p1.center)
      ((cosd p1.orientation, sind p1.orientation) : Pt) - L1|) :
    ∃ pts, path_J p1 p2 L1 L2 = .ok pts ∧ interSegsGE pts r := by
  have hdelta : deltaOrientation p1 p2 = 90 := by
    have h := delta_quarter p1 p2 (-q - 1) 1 (by norm_num) (by norm_num)
      (by rw [hor]; push_cast; ring)
    rw [h]; norm_num
  have hc : cosd p2.orientation = sind p1.orientation := by
    rw [hor, cosd_shift, show p1.orientation + 90 * ((3 : ℤ) : ℝ)
      = p1.orientation + 270 by norm_num, cosd_add_270]
  have hs : sind p2.orientation = -cosd p1.orientation := by
    rw [hor, sind_shift, show p1.orientation + 90 * ((3 : ℤ) : ℝ)
      = p1.orientation + 270 by norm_num, sind_add_270]
  have hb : (rotatedBasis p2.orientation).1
      = -((-sind p1.orientation, cosd p1.orientation) : Pt) := by
    show (cosd p2.orientation, sind p2.orientation) = _
    rw [hc, hs, Prod.neg_mk, neg_neg]
  have he1 : (rotatedBasis p1.orientation).1
      = ((cosd p1.orientation, sind p1.orientation) : Pt) := rfl
  simp only [path_J]
  simp only [hdelta]
  rw [if_neg (by norm_num), he1, hb]
  have hD : dot (p2.center + L2 • -((-sind p1.orientation, cosd p1.orientation) : Pt)
      - (p1.center + L1 • ((cosd p1.orientation, sind p1.orientation) : Pt)))
      (-((-sind p1.orientation, cosd p1.orientation) : Pt))
      = L2 - dot (p2.center - p1.center)
        ((-sind p1.orientation, cosd p1.orientation) : Pt) := by
    rw [dot_neg_right,
      show p2.center + L2 • -((-sind p1.orientation, cosd p1.orientation) : Pt)
        - (p1.center + L1 • ((cosd p1.orientation, sind p1.orientation) : Pt))
        = (p2.center - p1.center)
          - L2 • ((-sind p1.orientation, cosd p1.orientation) : Pt)
          - L1 • ((cosd p1.orientation, sind p1.orientation) : Pt) from by module,
      dot_sub_left, dot_sub_left, dot_smul_left, dot_smul_left, dot_ll, dot_fl]
    ring
  rw [hD]
  set Xv := dot (p2.center - p1.center)
    ((cosd p1.orientation, sind p1.orientation) : Pt) with hXv
  set Yv := dot (p2.center - p1.center)
    ((-sind p1.orientation, cosd p1.orientation) : Pt) with hYv
  have hdec := basis_decomp p1.orientation (p2.center - p1.center)
  rw [← hXv, ← hYv] at hdec
  refine ⟨_, rfl, ?_⟩
  intro i hi1 hi2
  simp only [List.length_cons, List.length_nil] at hi2
  have hi : i = 1 ∨ i = 2 := by omega
  rcases hi with hi | hi <;> subst hi
  · show r ≤ vlen ((p1.center
      + L1 • ((cosd p1.orientation, sind p1.orientation) : Pt)
      + (L2 - Yv) • -((-sind p1.orientation, cosd p1.orientation) : Pt))
      - (p1.center + L1 • ((cosd p1.orientation, sind p1.orientation) : Pt)))
    rw [add_sub_cancel_left, smul_neg, vlen_neg, vlen_smul_left]
    exact hb1
  · show r ≤ vlen ((p2.center
      + L2 • -((-sind p1.orientation, cosd p1.orientation) : Pt))
      - (p1.center + L1 • ((cosd p1.orientation, sind p1.orientation) : Pt)
        + (L2 - Yv) • -((-sind p1.orientation, cosd p1.orientation) : Pt)))
    rw [show (p2.center + L2 • -((-sind p1.orientation, cosd p1.orientation) : Pt))
        - (p1.center + L1 • ((cosd p1.orientation, sind p1.orientation) : Pt)
          + (L2 - Yv) • -((-sind p1.orientation, cosd p1.orientation) : Pt))
        = ((p2.center - p1.center)
          - Yv • ((-sind p1.orientation, cosd p1.orientation) : Pt))
          - L1 • ((cosd p1.orientation, sind p1.orientation) : Pt) from by module,
      ← hdec,
      show ((Xv • ((cosd p1.orientation, sind p1.orientation) : Pt)
          + Yv • ((-sind p1.orientation, cosd p1.orientation) : Pt))
          - Yv • ((-sind p1.orientation, cosd p1.orientation) : Pt))
          - L1 • ((cosd p1.orientation, sind p1.orientation) : Pt)
        = (Xv - L1) • ((cosd p1.orientation, sind p1.orientation) : Pt) from by module,
      vlen_smul_fwd]
    exact hb2

/-- U-path success and intermediate-segment length: the single intermediate
segment is the lateral component of the displacement. -/
theorem path_U_inter (p1 p2 : Port) (L1 r : ℝ)
    (hdelta : deltaOrientation p1 p2 = 0 ∨ deltaOrientation p1 p2 = 180)
    (hb1 : r ≤ |dot (p2.center - p1.center)
      ((-sind p1.orientation, cosd p1.orientation) : Pt)|) :
    ∃ pts, path_U p1 p2 L1 = .ok pts ∧ interSegsGE pts r := by
  have hcond : ¬¬(deltaOrientation p1 p2 = 0 ∨ deltaOrientation p1 p2 = 180 ∨
      deltaOrientation p1 p2 = 360) := by
    rcases hdelta with h | h <;> simp [h]
  simp only [path_U]
  rw [if_neg hcond,
    show ((Real.cos (p1.orientation * π / 180),
        Real.sin (p1.orientation * π / 180)) : Pt)
      = ((cosd p1.orientation, sind p1.orientation) : Pt) from rfl,
    show ((-1 * Real.sin (p1.orientation * π / 180),
        Real.cos (p1.orientation * π / 180)) : Pt)
      = ((-sind p1.orientation, cosd p1.orientation) : Pt) by
      unfold cosd sind
      rw [Prod.mk.injEq]
      exact ⟨by ring, rfl⟩]
  have hD : dot (p2.center
      - (p1.center + L1 • ((cosd p1.orientation, sind p1.orientation) : Pt)))
      ((-sind p1.orientation, cosd p1.orientation) : Pt)
      = dot (p2.center - p1.center)
        ((-sind p1.orientation, cosd p1.orientation) : Pt) := by
    rw [show p2.center
        - (p1.center + L1 • ((cosd p1.orientation, sind p1.orientation) : Pt))
        = (p2.center - p1.center)
          - L1 • ((cosd p1.orientation, sind p1.orientation) : Pt) from by module,
      dot_sub_left, dot_smul_left, dot_fl]
    ring
  rw [hD]
  refine ⟨_, rfl, ?_⟩
  intro i hi1 hi2
  simp only [List.length_cons, List.length_nil] at hi2
  have hi : i = 1 := by omega
  subst hi
  show r ≤ vlen ((p1.center
    + L1 • ((cosd p1.orientation, sind p1.orientation) : Pt)
    + dot (p2.center - p1.center)
      ((-sind p1.orientation, cosd p1.orientation) : Pt)
      • ((-sind p1.orientation, cosd p1.orientation) : Pt))
    - (p1.center + L1 • ((cosd p1.orientation, sind p1.orientation) : Pt)))
  rw [add_sub_cancel_left, vlen_smul_left]
  exact hb1

/-- C-path success and intermediate-segment lengths when the two ports have
exactly the same orientation mod 360. -/
theorem path_C_inter_0 (p1 p2 : Port) (q : ℤ) (L1 lf L2 r : ℝ)
    (hor : p2.orientation = p1.orientation + 90 * ((4 * q + 0 : ℤ) : ℝ))
    (hbl : r ≤ |lf|)
    (hb2 : r ≤ |dot (p2.center - p1.center)
      ((cosd p1.orientation, sind p1.orientation) : Pt) + L2 - L1|)
    (hb3 : r ≤ |dot (p2.center - p1.center)
      ((-sind p1.orientation, cosd p1.orientation) : Pt) - lf|) :
    ∃ pts, path_C p1 p2 L1 lf L2 = .ok pts ∧ interSegsGE pts r := by
  have hdelta : deltaOrientation p1 p2 = 0 := by
    have h := delta_quarter p1 p2 (-q) 0 (by norm_num) (by norm_num)
      (by rw [hor]; push_cast; ring)
    rw [h]; norm_num
  have hc : cosd p2.orientation = cosd p1.orientation := by
    rw [hor, cosd_shift, show p1.orientation + 90 * ((0 : ℤ) : ℝ)
      = p1.orientation by norm_num]
  have hs : sind p2.orientation = sind p1.orientation := by
    rw [hor, sind_shift, show p1.orientation + 90 * ((0 : ℤ) : ℝ)
      = p1.orientation by norm_num]
  have hb : (rotatedBasis p2.orientation).1
      = ((cosd p1.orientation, sind p1.orientation) : Pt) := by
    show (cosd p2.orientation, sind p2.orientation) = _
    rw [hc, hs]
  simp only [path_C]
  simp only [hdelta]
  rw [if_neg (by norm_num),
    show (rotatedBasis p1.orientation).1
      = ((cosd p1.orientation, sind p1.orientation) : Pt) from rfl,
    show (rotatedBasis p1.orientation).2
      = ((-sind p1.orientation, cosd p1.orientation) : Pt) from rfl,
    hb]
  have hD : dot (p2.center + L2 • ((cosd p1.orientation, sind p1.orientation) : Pt)
      - (p1.center + L1 • ((cosd p1.orientation, sind p1.orientation) : Pt)
        + lf • ((-sind p1.orientation, cosd p1.orientation) : Pt)))
      ((cosd p1.orientation, sind p1.orientation) : Pt)
      = dot (p2.center - p1.center)
        ((cosd p1.orientation, sind p1.orientation) : Pt) + L2 - L1 := by
    rw [show p2.center + L2 • ((cosd p1.orientation, sind p1.orientation) : Pt)
        - (p1.center + L1 • ((cosd p1.orientation, sind p1.orientation) : Pt)
          + lf • ((-sind p1.orientation, cosd p1.orientation) : Pt))
        = (p2.center - p1.center)
          + L2 • ((cosd p1.orientation, sind p1.orientation) : Pt)
          - L1 • ((cosd p1.orientation, sind p1.orientation) : Pt)
          - lf • ((-sind p1.orientation, cosd p1.orientation) : Pt) from by module,
      dot_sub_left, dot_sub_left, dot_add_left, dot_smul_left, dot_smul_left,
      dot_smul_left, dot_ff, dot_lf]
    ring
  rw [hD]
  set Xv := dot (p2.center - p1.center)
    ((cosd p1.orientation, sind p1.orientation) : Pt) with hXv
  set Yv := dot (p2.center - p1.center)
    ((-sind p1.orientation, cosd p1.orientation) : Pt) with hYv
  have hdec := basis_decomp p1.orientation (p2.center - p1.center)
  rw [← hXv, ← hYv] at hdec
  refine ⟨_, rfl, ?_⟩
  intro i hi1 hi2
  simp only [List.length_cons, List.length_nil] at hi2
  have hi : i = 1 ∨ i = 2 ∨ i = 3 := by omega
  rcases hi with hi | hi | hi <;> subst hi
  · show r ≤ vlen ((p1.center
      + L1 • ((cosd p1.orientation, sind p1.orientation) : Pt)
      + lf • ((-sind p1.orientation, cosd p1.orientation) : Pt))
      - (p1.center + L1 • ((cosd p1.orientation, sind p1.orientation) : Pt)))
    rw [add_sub_cancel_left, vlen_smul_left]
    exact hbl
  · show r ≤ vlen ((p1.center
      + L1 • ((cosd p1.orientation, sind p1.orientation) : Pt)
      + lf • ((-sind p1.orientation, cosd p1.orientation) : Pt)
      + (Xv + L2 - L1) • ((cosd p1.orientation, sind p1.orientation) : Pt))
      - (p1.center + L1 • ((cosd p1.orientation, sind p1.orientation) : Pt)
        + lf • ((-sind p1.orientation, cosd p1.orientation) : Pt)))
    rw [add_sub_cancel_left, vlen_smul_fwd]
    exact hb2
  · show r ≤ vlen ((p2.center
      + L2 • ((cosd p1.orientation, sind p1.orientation) : Pt))
      - (p1.center + L1 • ((cosd p1.orientation, sind p1.orientation) : Pt)
        + lf • ((-sind p1.orientation, cosd p1.orientation) : Pt)
        + (Xv + L2 - L1) • ((cosd p1.orientation, sind p1.orientation) : Pt)))
    rw [show (p2.center + L2 • ((cosd p1.orientation, sind p1.orientation) : Pt))
        - (p1.center + L1 • ((cosd p1.orientation, sind p1.orientation) : Pt)
          + lf • ((-sind p1.orientation, cosd p1.orientation) : Pt)
          + (Xv + L2 - L1) • ((cosd p1.orientation, sind p1.orientation) : Pt))
        = ((p2.center - p1.center)
          - Xv • ((cosd p1.orientation, sind p1.orientation) : Pt))
          - lf • ((-sind p1.orientation, cosd p1.orientation) : Pt) from by module,
      ← hdec,
      show ((Xv • ((cosd p1.orientation, sind p1.orientation) : Pt)
          + Yv • ((-sind p1.orientation, cosd p1.orientation) : Pt))
          - Xv • ((cosd p1.orientation, sind p1.orientation) : Pt))
          - lf • ((-sind p1.orientation, cosd p1.orientation) : Pt)
        = (Yv - lf) • ((-sind p1.orientation, cosd p1.orientation) : Pt) from by module,
      vlen_smul_left]
    exact hb3

/-- C-path success and intermediate-segment lengths when the two ports have
exactly opposite orientations mod 360. -/
theorem path_C_inter_180 (p1 p2 : Port) (q : ℤ) (L1 lf L2 r : ℝ)
    (hor : p2.orientation = p1.orientation + 90 * ((4 * q + 2 : ℤ) : ℝ))
    (hbl : r ≤ |lf|)
    (hb2 : r ≤ |dot (p2.center - p1.center)
      ((cosd p1.orientation, sind p1.orientation) : Pt) - L2 - L1|)
    (hb3 : r ≤ |dot (p2.center - p1.center)
      ((-sind p1.orientation, cosd p1.orientation) : Pt) - lf|) :
    ∃ pts, path_C p1 p2 L1 lf L2 = .ok pts ∧ interSegsGE pts r := by
  have hdelta : deltaOrientation p1 p2 = 180 := by
    have h := delta_quarter p1 p2 (-q - 1) 2 (by norm_num) (by norm_num)
      (by rw [hor]; push_cast; ring)
    rw [h]; norm_num
  have hc : cosd p2.orientation = -cosd p1.orientation := by
    rw [hor, cosd_shift, show p1.orientation + 90 * ((2 : ℤ) : ℝ)
      = p1.orientation + 180 by norm_num, cosd_add_180]
  have hs : sind p2.orientation = -sind p1.orientation := by
    rw [hor, sind_shift, show p1.orientation + 90 * ((2 : ℤ) : ℝ)
      = p1.orientation + 180 by norm_num, sind_add_180]
  have hb : (rotatedBasis p2.orientation).1
      = -((cosd p1.orientation, sind p1.orientation) : Pt) := by
    show (cosd p2.orientation, sind p2.orientation) = _
    rw [hc, hs, Prod.neg_mk]
  simp only [path_C]
  simp only [hdelta]
  rw [if_neg (by norm_num),
    show (rotatedBasis p1.orientation).1
      = ((cosd p1.orientation, sind p1.orientation) : Pt) from rfl,
    show (rotatedBasis p1.orientation).2
      = ((-sind p1.orientation, cosd p1.orientation) : Pt) from rfl,
    hb]
  have hD : dot (p2.center
      + L2 • -((cosd p1.orientation, sind p1.orientation) : Pt)
      - (p1.center + L1 • ((cosd p1.orientation, sind p1.orientation) : Pt)
        + lf • ((-sind p1.orientation, cosd p1.orientation) : Pt)))
      ((cosd p1.orientation, sind p1.orientation) : Pt)
      = dot (p2.center - p1.center)
        ((cosd p1.orientation, sind p1.orientation) : Pt) - L2 - L1 := by
    rw [show p2.center + L2 • -((cosd p1.orientation, sind p1.orientation) : Pt)
        - (p1.center + L1 • ((cosd p1.orientation, sind p1.orientation) : Pt)
          + lf • ((-sind p1.orientation, cosd p1.orientation) : Pt))
        = (p2.center - p1.center)
          - L2 • ((cosd p1.orientation, sind p1.orientation) : Pt)
          - L1 • ((cosd p1.orientation, sind p1.orientation) : Pt)
          - lf • ((-sind p1.orientation, cosd p1.orientation) : Pt) from by module,
      dot_sub_left, dot_sub_left, dot_sub_left, dot_smul_left, dot_smul_left,
      dot_smul_left, dot_ff, dot_lf]
    ring
  rw [hD]
  set Xv := dot (p2.center - p1.center)
    ((cosd p1.orientation, sind p1.orientation) : Pt) with hXv
  set Yv := dot (p2.center - p1.center)
    ((-sind p1.orientation, cosd p1.orientation) : Pt) with hYv
  have hdec := basis_decomp p1.orientation (p2.center - p1.center)
  rw [← hXv, ← hYv] at hdec
  refine ⟨_, rfl, ?_⟩
  intro i hi1 hi2
  simp only [List.length_cons, List.length_nil] at hi2
  have hi : i = 1 ∨ i = 2 ∨ i = 3 := by omega
  rcases hi with hi | hi | hi <;> subst hi
  · show r ≤ vlen ((p1.center
      + L1 • ((cosd p1.orientation, sind p1.orientation) : Pt)
      + lf • ((-sind p1.orientation, cosd p1.orientation) : Pt))
      - (p1.center + L1 • ((cosd p1.orientation, sind p1.orientation) : Pt)))
    rw [add_sub_cancel_left, vlen_smul_left]
    exact hbl
  · show r ≤ vlen ((p1.center
      + L1 • ((cosd p1.orientation, sind p1.orientation) : Pt)
      + lf • ((-sind p1.orientation, cosd p1.orientation) : Pt)
      + (Xv - L2 - L1) • ((cosd p1.orientation, sind p1.orientation) : Pt))
      - (p1.center + L1 • ((cosd p1.orientation, sind p1.orientation) : Pt)
        + lf • ((-sind p1.orientation, cosd p1.orientation) : Pt)))
    rw [add_sub_cancel_left, vlen_smul_fwd]
    exact hb2
  · show r ≤ vlen ((p2.center
      + L2 • -((cosd p1.orientation, sind p1.orientation) : Pt))
      - (p1.center + L1 • ((cosd p1.orientation, sind p1.orientation) : Pt)
        + lf • ((-sind p1.orientation, cosd p1.orientation) : Pt)
        + (Xv - L2 - L1) • ((cosd p1.orientation, sind p1.orientation) : Pt)))
    rw [show (p2.center + L2 • -((cosd p1.orientation, sind p1.orientation) : Pt))
        - (p1.center + L1 • ((cosd p1.orientation, sind p1.orientation) : Pt)
          + lf • ((-sind p1.orientation, cosd p1.orientation) : Pt)
          + (Xv - L2 - L1) • ((cosd p1.orientation, sind p1.orientation) : Pt))
        = ((p2.center - p1.center)
          - Xv • ((cosd p1.orientation, sind p1.orientation) : Pt))
          - lf • ((-sind p1.orientation, cosd p1.orientation) : Pt) from by module,
      ← hdec,
      show ((Xv • ((cosd p1.orientation, sind p1.orientation) : Pt)
          + Yv • ((-sind p1.orientation, cosd p1.orientation) : Pt))
          - Xv • ((cosd p1.orientation, sind p1.orientation) : Pt))
          - lf • ((-sind p1.orientation, cosd p1.orientation) : Pt)
        = (Yv - lf) • ((-sind p1.orientation, cosd p1.orientation) : Pt) from by module,
      vlen_smul_left]
    exact hb3

/-- Bound for the J-path `length1` (identical in the 90 and 270 branches). -/
theorem jBoundL1 (r xr Xv : ℝ) (hr : 0 < r) (hX : |xr - Xv| ≤ 1 / 2000) :
    r ≤ |Xv - (if |r + 0.1 - xr| < 2 * (r + 0.1) then 2 * (r + 0.1) + xr
      else r + 0.1)| := by
  obtain ⟨hx1, hx2⟩ := abs_le.mp hX
  split
  next h =>
    apply le_abs_right
    linarith
  next h =>
    rcases le_abs.mp (not_lt.mp h) with h1 | h1
    · apply le_abs_right
      linarith
    · apply le_abs_left
      linarith

/-- Bound for the J-path `length2` in the 90-degree branch. -/
theorem jBoundL2_90 (r yr Yv : ℝ) (hr : 0 < r) (hY : |yr - Yv| ≤ 1 / 2000) :
    r ≤ |Yv + (if |r + 0.1 + 1 * yr| < 2 * (r + 0.1) then 2 * (r + 0.1) - 1 * yr
      else r + 0.1)| := by
  obtain ⟨hy1, hy2⟩ := abs_le.mp hY
  split
  next h =>
    apply le_abs_left
    linarith
  next h =>
    rcases le_abs.mp (not_lt.mp h) with h1 | h1
    · apply le_abs_left
      linarith
    · apply le_abs_right
      linarith

/-- Bound for the J-path `length2` in the 270-degree branch. -/
theorem jBoundL2_270 (r yr Yv : ℝ) (hr : 0 < r) (hY : |yr - Yv| ≤ 1 / 2000) :
    r ≤ |(if |r + 0.1 + -1 * yr| < 2 * (r + 0.1) then 2 * (r + 0.1) - -1 * yr
      else r + 0.1) - Yv| := by
  obtain ⟨hy1, hy2⟩ := abs_le.mp hY
  split
  next h =>
    apply le_abs_left
    linarith
  next h =>
    rcases le_abs.mp (not_lt.mp h) with h1 | h1
    · apply le_abs_left
      linarith
    · apply le_abs_right
      linarith

/-- Bound for the C-path `left1` itself. -/
theorem cBoundLf (r yr : ℝ) (hr : 0 < r) :
    r ≤ |(if yr < 0 then (-1 : ℝ) else 1) *
      (if |yr| < 4 * (r + 0.1) then |yr| + 2 * (r + 0.1) else 2 * (r + 0.1))| := by
  have ha := abs_nonneg yr
  split
  next =>
    split
    next =>
      rw [abs_mul, abs_neg, abs_one, one_mul, abs_of_nonneg (by linarith)]
      linarith
    next =>
      rw [abs_mul, abs_neg, abs_one, one_mul, abs_of_nonneg (by linarith)]
      linarith
  next =>
    split
    next =>
      rw [one_mul, abs_of_nonneg (by linarith)]
      linarith
    next =>
      rw [one_mul, abs_of_nonneg (by linarith)]
      linarith

/-- Bound for the fourth C-path segment (lateral return leg). -/
theorem cBoundY (r yr Yv : ℝ) (hr : 0 < r) (hY : |yr - Yv| ≤ 1 / 2000) :
    r ≤ |Yv - (if yr < 0 then (-1 : ℝ) else 1) *
      (if |yr| < 4 * (r + 0.1) then |yr| + 2 * (r + 0.1) else 2 * (r + 0.1))| := by
  obtain ⟨hy1, hy2⟩ := abs_le.mp hY
  split
  next hneg =>
    rw [abs_of_neg hneg]
    split
    next h =>
      apply le_abs_left
      linarith
    next h =>
      have h' := not_lt.mp h
      apply le_abs_right
      linarith
  next hpos =>
    rw [abs_of_nonneg (not_lt.mp hpos)]
    split
    next h =>
      apply le_abs_right
      linarith
    next h =>
      have h' := not_lt.mp h
      apply le_abs_left
      linarith

/-- Bound for the third C-path segment when the ports share an orientation. -/
theorem cBoundX0 (r xr Xv : ℝ) (hr : 0 < r) (hX : |xr - Xv| ≤ 1 / 2000) :
    r ≤ |Xv + (r + 0.1) - (if |xr + 1 * (r + 0.1) - (r + 0.1)| < 2 * (r + 0.1)
      then xr + 1 * (r + 0.1) + 2 * (r + 0.1) else r + 0.1)| := by
  obtain ⟨hx1, hx2⟩ := abs_le.mp hX
  split
  next h =>
    obtain ⟨h1, h2⟩ := abs_lt.mp h
    apply le_abs_right
    linarith
  next h =>
    rcases le_abs.mp (not_lt.mp h) with h1 | h1
    · apply le_abs_left
      linarith
    · apply le_abs_right
      linarith

/-- Bound for the third C-path segment when the ports face each other. -/
theorem cBoundX180 (r xr Xv : ℝ) (hr : 0 < r) (hX : |xr - Xv| ≤ 1 / 2000) :
    r ≤ |Xv - (r + 0.1) - (if |xr + -1 * (r + 0.1) - (r + 0.1)| < 2 * (r + 0.1)
      then xr + -1 * (r + 0.1) + 2 * (r + 0.1) else r + 0.1)| := by
  obtain ⟨hx1, hx2⟩ := abs_le.mp hX
  split
  next h =>
    obtain ⟨h1, h2⟩ := abs_lt.mp h
    apply le_abs_right
    linarith
  next h =>
    rcases le_abs.mp (not_lt.mp h) with h1 | h1
    · apply le_abs_left
      linarith
    · apply le_abs_right
      linarith

/-- Bound for the single intermediate U-path segment. -/
theorem uBound (r yr Yv : ℝ) (hr : 0 < r) (hY : |yr - Yv| ≤ 1 / 2000)
    (h : ¬|yr| < 2 * (r + 0.1)) : r ≤ |Yv| := by
  have h1 := abs_sub_abs_le_abs_sub yr Yv
  have h2 := not_lt.mp h
  linarith

/-! ### Numeric bounds on the trig functions at 90.0004 degrees -/

theorem sin_tiny_hi : Real.sin (π / 450000) < 6.982e-6 := by
  have hpi1 := Real.pi_gt_3141592
  have hpi2 := Real.pi_lt_3141593
  have hx0 : (0 : ℝ) < π / 450000 := by linarith
  have h := Real.sin_lt hx0
  linarith

theorem sin_tiny_lo : (6.98e-6 : ℝ) < Real.sin (π / 450000) := by
  have hpi1 := Real.pi_gt_3141592
  have hpi2 := Real.pi_lt_3141593
  have hx0 : (0 : ℝ) < π / 450000 := by linarith
  have hx1 : π / 450000 < 6.982e-6 := by linarith
  have hx2 : π / 450000 ≤ 1 := by linarith
  have h3 := Real.sin_gt_sub_cube hx0 hx2
  have hsq : (π / 450000) ^ 2 < 1e-10 := by nlinarith
  have hcube : (π / 450000) ^ 3 < 1e-15 := by nlinarith
  have hlo : (6.981e-6 : ℝ) < π / 450000 := by linarith
  linarith

theorem cos_tiny_lo : (0.99 : ℝ) < Real.cos (π / 450000) := by
  have hpi1 := Real.pi_gt_3141592
  have hpi2 := Real.pi_lt_3141593
  have hc1 : Real.cos (π / 450000) ≤ 1 := Real.cos_le_one _
  have hc0 : 0 < Real.cos (π / 450000) :=
    Real.cos_pos_of_mem_Ioo (Set.mem_Ioo.mpr ⟨by linarith, by linarith⟩)
  have hs_hi := sin_tiny_hi
  have hs_lo := sin_tiny_lo
  have hpy := Real.sin_sq_add_cos_sq (π / 450000)
  nlinarith [mul_nonneg hc0.le (sub_nonneg.mpr hc1)]

theorem cosd_90_0004 : cosd (90.0004 : ℝ) = -Real.sin (π / 450000) := by
  unfold cosd
  rw [show (90.0004 : ℝ) * π / 180 = π / 2 + π / 450000 by ring,
    Real.cos_add, Real.cos_pi_div_two, Real.sin_pi_div_two]
  ring

theorem sind_90_0004 : sind (90.0004 : ℝ) = Real.cos (π / 450000) := by
  unfold sind
  rw [show (90.0004 : ℝ) * π / 180 = π / 2 + π / 450000 by ring,
    Real.sin_add, Real.cos_pi_div_two, Real.sin_pi_div_two]
  ring

/-! ### Concrete evaluation helpers -/

theorem fmod_360_self (a : ℝ) (h1 : 0 ≤ a) (h2 : a < 360) : fmod a 360 = a := by
  have h := fmod_eq a 360 0 (by norm_num) (by norm_num; exact h1)
    (by push_cast; linarith)
  simpa using h

theorem fmod_360_neg (a : ℝ) (h1 : -360 ≤ a) (h2 : a < 0) :
    fmod a 360 = a + 360 := by
  have h := fmod_eq a 360 (-1) (by norm_num) (by push_cast; linarith)
    (by push_cast; linarith)
  rw [h]
  push_cast
  ring

theorem round3_zero : round3 0 = 0 := by
  have h := round3_intCast 0
  simpa using h

theorem rotatedBasis_zero : rotatedBasis 0 = ((1, 0), (0, 1)) := by
  rw [rotatedBasis, cosd_zero, sind_zero]
  norm_num

theorem rotatedBasis_90 : rotatedBasis 90 = ((0, 1), (-1, 0)) := by
  rw [rotatedBasis, cosd_90, sind_90]

theorem rotatedBasis_180 : rotatedBasis 180 = ((-1, 0), (0, -1)) := by
  rw [rotatedBasis, cosd_180, sind_180]
  norm_num

theorem rotatedBasis_270 : rotatedBasis 270 = ((0, -1), (1, 0)) := by
  rw [rotatedBasis, cosd_270, sind_270]
  norm_num

/-! ### The side-bundle router (`routing/route_ports_to_side.py`) -/

noncomputable section

/-- Stable insertion of a port into a key-sorted list (`list.sort(key=...)`
places an element before the first strictly larger key, after equal keys of
earlier elements). -/
def insertK (key : Port → ℝ) (a : Port) : List Port → List Port
  | [] => [a]
  | b :: bs => if key a ≤ key b then a :: b :: bs else b :: insertK key a bs

/-- Python's stable `list.sort(key=...)` (ascending). -/
def sortByKey (key : Port → ℝ) : List Port → List Port
  | [] => []
  | a :: as => insertK key a (sortByKey key as)

/-- Python `min` of a list of floats (the list is nonempty at call sites). -/
def listMin : List ℝ → ℝ
  | [] => 0
  | x :: xs => xs.foldl min x

/-- Python `max` of a list of floats (the list is nonempty at call sites). -/
def listMax : List ℝ → ℝ
  | [] => 0
  | x :: xs => xs.foldl max x

/-- Modelled from the spec: `gdsfactory.port.flipped` / `Port.flip` (not in
the provided sources) rotate the port orientation by 180° mod 360; the spec
(§4.4) has the emitted bundle ports lying on the target line facing
outward. -/
def flipped (p : Port) : Port :=
  { p with orientation := fmod (p.orientation + 180) 360 }

/-- Errors of a bundle-routing call: `inner` is an uncaught exception of the
injected routing function propagating raw; `invalid` is a `ValueError` or
`TypeError` of the router itself; `couldNotConnect` is the y-variant's
wrapped error naming the two ports. -/
inductive BundleError (E : Type) where
  | inner : E → BundleError E
  | invalid : String → BundleError E
  | couldNotConnect : String → String → E → BundleError E

/-- One `(port, lane, start_straight_length)` work item per input port, in
emission order. -/
abbrev Item : Type := Port × ℝ × ℝ

/-- Work items for a stacked block (`south`/`north`/`west`/`east` loops):
lanes advance by `step` from `lane0`, constant start-straight length. -/
def stackItems (ssl step : ℝ) : ℝ → List Port → List Item
  | _, [] => []
  | lane, p :: ps => (p, lane, ssl) :: stackItems ssl step (lane + step) ps

/-- Work items for a backward block: lanes advance by `step`; the
start-straight base grows by `sep` per port and each port adds its own
extension `sectionLen p`. -/
def backItems (sectionLen : Port → ℝ) (step sep : ℝ) :
    ℝ → ℝ → List Port → List Item
  | _, _, [] => []
  | lane, sslBase, p :: ps =>
    (p, lane, sslBase + sectionLen p) ::
      backItems sectionLen step sep (lane + step) (sslBase + sep) ps

/-- The per-port loop of `route_ports_to_x.add_port`: make the new port,
route to it (any exception propagates raw), collect the route and the
flipped new port. -/
def processX {E R : Type} (rf : Port → Port → ℝ → ℝ → Except E R)
    (mk : Port → ℝ → Port) (radius : ℝ) :
    List Item → Except E (List R × List Port)
  | [] => .ok ([], [])
  | (p, lane, ssl) :: rest =>
    match rf p (mk p lane) ssl radius with
    | .error e => .error e
    | .ok r =>
      match processX rf mk radius rest with
      | .error e => .error e
      | .ok (rs, qs) => .ok (r :: rs, flipped (mk p lane) :: qs)

/-- The per-port loop of `route_ports_to_y.add_port`: skip routing when the
new port coincides with the old one (squared distance below `1e-12`), and
wrap a routing failure in a `ValueError` naming both ports. -/
def processY {E R : Type} (rf : Port → Port → ℝ → ℝ → Except E R)
    (mk : Port → ℝ → Port) (radius : ℝ) :
    List Item → Except (BundleError E) (List R × List Port)
  | [] => .ok ([], [])
  | (p, lane, ssl) :: rest =>
    let np := mk p lane
    if (np.center.1 - p.center.1) ^ 2 + (np.center.2 - p.center.2) ^ 2 < 1e-12 then
      match processY rf mk radius rest with
      | .error e => .error e
      | .ok (rs, qs) => .ok (rs, flipped np :: qs)
    else
      match rf p np ssl radius with
      | .error e => .error (.couldNotConnect p.name np.name e)
      | .ok r =>
        match processY rf mk radius rest with
        | .error e => .error e
        | .ok (rs, qs) => .ok (r :: rs, flipped np :: qs)

/-- `route_ports_to_x(list_ports, x, ...)`: route every port to a vertical
line.  `x` is a float or the string `"east"`/`"west"`; the injected
`routing_func` returns `Except E R`.  A `min()`/`max()` call on an empty
port list and the position `ValueError`s are `invalid` errors; an exception
of `routing_func` propagates raw (`inner`). -/
def route_ports_to_x {E R : Type} (rf : Port → Port → ℝ → ℝ → Except E R)
    (list_ports : List Port) (x : ℝ ⊕ String)
    (separation : ℝ := 10) (radius : ℝ := 10)
    (extend_bottom : ℝ := 0) (extend_top : ℝ := 0)
    (extension_length : ℝ := 0)
    (y0_bottom : Option ℝ := none) (y0_top : Option ℝ := none)
    (backward_port_side_split_index : ℕ := 0)
    (start_straight_length : ℝ := 0.01)
    (dx_start : Option ℝ := none) (dy_start : Option ℝ := none) :
    Except (BundleError E) (List R × List Port) :=
  if list_ports.isEmpty then .error (.invalid "min() arg is an empty sequence")
  else
    let north_ports := list_ports.filter fun p => decide (p.orientation = 90)
    let south_ports := list_ports.filter fun p => decide (p.orientation = 270)
    let east_ports := list_ports.filter fun p => decide (p.orientation = 0)
    let west_ports := list_ports.filter fun p => decide (p.orientation = 180)
    let epsilon : ℝ := 1.0
    let a := epsilon + max radius separation
    let bx := match dx_start with
      | some d => if d = 0 then a else epsilon + max radius d
      | none => a
    let by_ := match dy_start with
      | some d => if d = 0 then a else epsilon + max radius d
      | none => a
    let xs := list_ports.map fun p => p.center.1
    let ys := list_ports.map fun p => p.center.2
    let y0b := (match y0_bottom with
      | some v => v
      | none => listMin ys - by_) - extend_bottom
    let y0t := (match y0_top with
      | some v => v
      | none => listMax ys + (match dy_start with
          | some d => if d = 0 then a else max radius d
          | none => a)) + extend_top
    let extLen := if x = Sum.inr "west" ∧ 0 < extension_length then
      -extension_length else extension_length
    let xres : Except (BundleError E) ℝ :=
      match x with
      | .inr "east" => .ok (listMax xs + bx)
      | .inr "west" => .ok (listMin xs - bx)
      | .inl v => .ok v
      | .inr _ => .error (.invalid "x should be a float or east or west")
    match xres with
    | .error e => .error e
    | .ok xr =>
      let cfg : Option ((Port → ℝ) × List Port × List Port × ℝ) :=
        if xr < listMin xs then
          some (fun p => p.center.1, west_ports, east_ports, 0)
        else if xr > listMax xs then
          some (fun p => -p.center.1, east_ports, west_ports, 180)
        else none
      match cfg with
      | none =>
        .error (.invalid "x should be either to the east or to the west of all ports")
      | some (keyNS, forward_ports, backward_ports, angle) =>
        let north_s := sortByKey keyNS north_ports
        let south_s := sortByKey keyNS south_ports
        let forward_s := sortByKey (fun p => p.center.2) forward_ports
        let backward_s := sortByKey (fun p => p.center.2) backward_ports
        let thru_south := sortByKey (fun p => p.center.2)
          (backward_s.take backward_port_side_split_index)
        let thru_north := sortByKey (fun p => -p.center.2)
          (backward_s.drop backward_port_side_split_index)
        let mk := fun (p : Port) (lane : ℝ) =>
          { p with
            name := p.name ++ "_new"
            orientation := angle
            center := (xr + extLen, lane) }
        let maxX := listMax xs
        let minX := listMin xs
        let sectionLen := fun (p : Port) =>
          if angle = 0 ∧ p.center.1 < maxX then maxX - p.center.1
          else if angle = 180 ∧ p.center.1 > minX then p.center.1 - minX
          else 0
        let items :=
          stackItems start_straight_length (-separation) y0b south_s ++
          (forward_s.map fun p => (p, p.center.2, start_straight_length)) ++
          stackItems start_straight_length separation y0t north_s ++
          backItems sectionLen separation separation
            (y0t + (north_s.length : ℝ) * separation) start_straight_length
            thru_north ++
          backItems sectionLen (-separation) separation
            (y0b - (south_s.length : ℝ) * separation)
            (start_straight_length + (thru_north.length : ℝ) * separation)
            thru_south
        match processX rf mk radius items with
        | .error e => .error (.inner e)
        | .ok res => .ok res

/-- `route_ports_to_y(list_ports, y, ...)`: route every port to a horizontal
line.  `y` is a float or the string `"north"`/`"south"`.  Ports are
classified in 45° bands; coincident targets are skipped; a failure of the
injected routing function is wrapped in a `ValueError` naming the two ports
(`couldNotConnect`). -/
def route_ports_to_y {E R : Type} (rf : Port → Port → ℝ → ℝ → Except E R)
    (list_ports : List Port) (y : ℝ ⊕ String)
    (separation : ℝ := 10) (radius : ℝ := 10)
    (x0_left : Option ℝ := none) (x0_right : Option ℝ := none)
    (extension_length : ℝ := 0)
    (extend_left : ℝ := 0) (extend_right : ℝ := 0)
    (backward_port_side_split_index : ℕ := 0)
    (start_straight_length : ℝ := 0.01)
    (dx_start : Option ℝ := none) (dy_start : Option ℝ := none) :
    Except (BundleError E) (List R × List Port) :=
  let extLen := if y = Sum.inr "south" ∧ 0 < extension_length then
    -extension_length else extension_length
  if list_ports.isEmpty then .error (.invalid "min() arg is an empty sequence")
  else
    let da : ℝ := 45
    let north_ports := list_ports.filter fun p =>
      decide (90 - da < p.orientation ∧ p.orientation < 90 + da)
    let south_ports := list_ports.filter fun p =>
      decide (270 - da < p.orientation ∧ p.orientation < 270 + da)
    let east_ports := list_ports.filter fun p =>
      decide (p.orientation < da ∨ p.orientation > 360 - da)
    let west_ports := list_ports.filter fun p =>
      decide (p.orientation < 180 + da ∧ p.orientation > 180 - da)
    let epsilon : ℝ := 1.0
    let a := radius + max radius separation
    let bx := match dx_start with
      | some d => if d = 0 then a else epsilon + max radius d
      | none => a
    let by_ := match dy_start with
      | some d => if d = 0 then a else epsilon + max radius d
      | none => a
    let xs := list_ports.map fun p => p.center.1
    let ys := list_ports.map fun p => p.center.2
    let x0l := (match x0_left with
      | some v => v
      | none => listMin xs - bx) - extend_left
    let x0r := (match x0_right with
      | some v => v
      | none => listMax xs + (match dx_start with
          | some d => if d = 0 then a else max radius d
          | none => a)) + extend_right
    let yres : Except (BundleError E) ℝ :=
      match y with
      | .inr "north" =>
        .ok (listMax (list_ports.map fun p =>
          p.center.2 + a * |Real.cos (p.orientation * π / 180)|) + by_)
      | .inr "south" =>
        .ok (listMin (list_ports.map fun p =>
          p.center.2 - a * |Real.cos (p.orientation * π / 180)|) - by_)
      | .inl v => .ok v
      | .inr _ => .error (.invalid "not supported between instances of str and float")
    match yres with
    | .error e => .error e
    | .ok yv =>
      let cfg : Option ((Port → ℝ) × List Port × List Port × ℝ) :=
        if yv ≤ listMin ys then
          some (fun p => p.center.2, south_ports, north_ports, 90)
        else if yv ≥ listMax ys then
          some (fun p => -p.center.2, north_ports, south_ports, -90)
        else none
      match cfg with
      | none =>
        .error (.invalid "y should be either to the north or to the south of all ports")
      | some (keyWE, forward_ports, backward_ports, angle) =>
        let west_s := sortByKey keyWE west_ports
        let east_s := sortByKey keyWE east_ports
        let forward_s := sortByKey (fun p => p.center.1) forward_ports
        let backward_s := sortByKey (fun p => p.center.1)
          (sortByKey (fun p => -p.center.1) backward_ports)
        let thru_west := sortByKey (fun p => p.center.1)
          (backward_s.take backward_port_side_split_index)
        let thru_east := sortByKey (fun p => -p.center.1)
          (backward_s.drop backward_port_side_split_index)
        let mk := fun (p : Port) (lane : ℝ) =>
          { p with
            orientation := angle
            center := (lane, yv + extLen) }
        let items :=
          stackItems start_straight_length (-separation) x0l west_s ++
          (forward_s.map fun p => (p, p.center.1, start_straight_length)) ++
          stackItems start_straight_length separation x0r east_s ++
          backItems (fun _ => 0) separation separation
            (x0r + (east_s.length : ℝ) * separation) start_straight_length
            thru_east ++
          backItems (fun _ => 0) (-separation) separation
            (x0l - (west_s.length : ℝ) * separation) start_straight_length
            thru_west
        processY rf mk radius items

end

/-! ### Facts about the bundle-router building blocks -/

theorem insertK_perm (key : Port → ℝ) (a : Port) (l : List Port) :
    (insertK key a l).Perm (a :: l) := by
  induction l with
  | nil => simp [insertK]
  | cons b bs ih =>
    rw [insertK]
    split
    · exact List.Perm.refl _
    · exact (ih.cons b).trans (List.Perm.swap a b bs)

theorem sortByKey_perm (key : Port → ℝ) (l : List Port) :
    (sortByKey key l).Perm l := by
  induction l with
  | nil => simp [sortByKey]
  | cons a as ih =>
    rw [sortByKey]
    exact (insertK_perm key a _).trans (ih.cons a)

theorem sortByKey_length (key : Port → ℝ) (l : List Port) :
    (sortByKey key l).length = l.length :=
  (sortByKey_perm key l).length_eq

theorem sortByKey_mem {q : Port} (key : Port → ℝ) (l : List Port) :
    q ∈ sortByKey key l ↔ q ∈ l :=
  (sortByKey_perm key l).mem_iff

theorem stackItems_length (ssl step : ℝ) :
    ∀ (ps : List Port) (lane0 : ℝ), (stackItems ssl step lane0 ps).length = ps.length := by
  intro ps
  induction ps with
  | nil => intro lane0; rfl
  | cons p ps ih => intro lane0; rw [stackItems]; simp [ih]

theorem backItems_length (sectionLen : Port → ℝ) (step sep : ℝ) :
    ∀ (ps : List Port) (lane0 ssl0 : ℝ),
      (backItems sectionLen step sep lane0 ssl0 ps).length = ps.length := by
  intro ps
  induction ps with
  | nil => intro lane0 ssl0; rfl
  | cons p ps ih => intro lane0 ssl0; rw [backItems]; simp [ih]

theorem stackItems_lane (ssl step : ℝ) :
    ∀ (ps : List Port) (lane0 : ℝ) (it : Item), it ∈ stackItems ssl step lane0 ps →
      (∃ i : ℕ, i < ps.length ∧ it.2.1 = lane0 + i * step) ∧ it.1 ∈ ps := by
  intro ps
  induction ps with
  | nil => intro lane0 it h; simp [stackItems] at h
  | cons p ps ih =>
    intro lane0 it h
    rw [stackItems, List.mem_cons] at h
    rcases h with h | h
    · subst h
      exact ⟨⟨0, by simp, by simp⟩, by simp⟩
    · obtain ⟨⟨i, hi, hl⟩, hm⟩ := ih (lane0 + step) it h
      refine ⟨⟨i + 1, by simpa using Nat.succ_lt_succ hi, ?_⟩, by simp [hm]⟩
      rw [hl]
      push_cast
      ring

theorem backItems_lane (sectionLen : Port → ℝ) (step sep : ℝ) :
    ∀ (ps : List Port) (lane0 ssl0 : ℝ) (it : Item),
      it ∈ backItems sectionLen step sep lane0 ssl0 ps →
      (∃ i : ℕ, i < ps.length ∧ it.2.1 = lane0 + i * step) ∧ it.1 ∈ ps := by
  intro ps
  induction ps with
  | nil => intro lane0 ssl0 it h; simp [backItems] at h
  | cons p ps ih =>
    intro lane0 ssl0 it h
    rw [backItems, List.mem_cons] at h
    rcases h with h | h
    · subst h
      exact ⟨⟨0, by simp, by simp⟩, by simp⟩
    · obtain ⟨⟨i, hi, hl⟩, hm⟩ := ih (lane0 + step) (ssl0 + sep) it h
      refine ⟨⟨i + 1, by simpa using Nat.succ_lt_succ hi, ?_⟩, by simp [hm]⟩
      rw [hl]
      push_cast
      ring

/-- The lane relation used for the separation invariant. -/
def LaneSep (sep : ℝ) (x y : Item) : Prop := sep ≤ |x.2.1 - y.2.1|

theorem abs_lane_chain (lane0 step : ℝ) (i j : ℕ) (sep : ℝ) (hsep : sep ≤ |step|)
    (hij : i ≠ j) :
    sep ≤ |lane0 + i * step - (lane0 + j * step)| := by
  rw [show lane0 + i * step - (lane0 + j * step) = ((i : ℝ) - j) * step by ring,
    abs_mul]
  have h1 : (1 : ℝ) ≤ |(i : ℝ) - j| := by
    have hz : (1 : ℤ) ≤ |(i : ℤ) - (j : ℤ)| := Int.one_le_abs (by omega)
    have hc : ((1 : ℤ) : ℝ) ≤ ((|(i : ℤ) - (j : ℤ)| : ℤ) : ℝ) := by
      exact_mod_cast hz
    rw [Int.cast_abs] at hc
    push_cast at hc
    simpa using hc
  calc sep ≤ |step| := hsep
    _ = 1 * |step| := by ring
    _ ≤ |(i : ℝ) - j| * |step| := mul_le_mul_of_nonneg_right h1 (abs_nonneg _)

theorem stackItems_pairwise (ssl step sep : ℝ) (hsep : sep ≤ |step|) :
    ∀ (ps : List Port) (lane0 : ℝ),
      List.Pairwise (LaneSep sep) (stackItems ssl step lane0 ps) := by
  intro ps
  induction ps with
  | nil => intro lane0; simp [stackItems]
  | cons p ps ih =>
    intro lane0
    rw [stackItems]
    refine List.Pairwise.cons ?_ (ih (lane0 + step))
    intro it hit
    obtain ⟨⟨i, _, hl⟩, -⟩ := stackItems_lane ssl step ps (lane0 + step) it hit
    unfold LaneSep
    rw [hl, show lane0 + step + i * step = lane0 + (i + 1 : ℕ) * step by push_cast; ring]
    have h := abs_lane_chain lane0 step 0 (i + 1) sep hsep (by omega)
    rw [show lane0 + (0 : ℕ) * step = lane0 by push_cast; ring] at h
    exact h

theorem backItems_pairwise (sectionLen : Port → ℝ) (step sep0 sep : ℝ)
    (hsep : sep ≤ |step|) :
    ∀ (ps : List Port) (lane0 ssl0 : ℝ),
      List.Pairwise (LaneSep sep) (backItems sectionLen step sep0 lane0 ssl0 ps) := by
  intro ps
  induction ps with
  | nil => intro lane0 ssl0; simp [backItems]
  | cons p ps ih =>
    intro lane0 ssl0
    rw [backItems]
    refine List.Pairwise.cons ?_ (ih (lane0 + step) (ssl0 + sep0))
    intro it hit
    obtain ⟨⟨i, _, hl⟩, -⟩ :=
      backItems_lane sectionLen step sep0 ps (lane0 + step) (ssl0 + sep0) it hit
    unfold LaneSep
    rw [hl, show lane0 + step + i * step = lane0 + (i + 1 : ℕ) * step by push_cast; ring]
    have h := abs_lane_chain lane0 step 0 (i + 1) sep hsep (by omega)
    rw [show lane0 + (0 : ℕ) * step = lane0 by push_cast; ring] at h
    exact h

/-- Core separation lemma: the five lane blocks emitted by a bundle-routing
call (stacked-down, forward, stacked-up, backward-up, backward-down) are
pairwise separated by `sep`, provided the stacked origins clear the forward
band by at least `sep` and the forward lanes are themselves separated. -/
theorem pairwise_items (sep : ℝ) (hsep : 0 < sep) (loY hiY y0b y0t : ℝ)
    (hb : y0b + sep ≤ loY) (ht : hiY + sep ≤ y0t) (hbt : y0b + sep ≤ y0t)
    (coord : Port → ℝ) (fwdL southL northL tnL tsL : List Port)
    (ssl s1 s2 : ℝ) (secL : Port → ℝ)
    (hf : ∀ p ∈ fwdL, loY ≤ coord p ∧ coord p ≤ hiY)
    (hfp : List.Pairwise (fun p q => sep ≤ |coord p - coord q|) fwdL) :
    List.Pairwise (LaneSep sep)
      (stackItems ssl (-sep) y0b southL ++
        (fwdL.map fun p => (p, coord p, ssl)) ++
        stackItems ssl sep y0t northL ++
        backItems secL sep sep (y0t + (northL.length : ℝ) * sep) s1 tnL ++
        backItems secL (-sep) sep (y0b - (southL.length : ℝ) * sep) s2 tsL) := by
  have hstepn : sep ≤ |(-sep)| := by rw [abs_neg, abs_of_pos hsep]
  have hstepp : sep ≤ |sep| := by rw [abs_of_pos hsep]
  have key : ∀ u v : ℝ, u + sep ≤ v → sep ≤ |u - v| := by
    intro u v huv
    rw [abs_sub_comm, abs_of_nonneg (by linarith)]
    linarith
  have key2 : ∀ u v : ℝ, u + sep ≤ v → sep ≤ |v - u| := by
    intro u v huv
    rw [abs_of_nonneg (by linarith)]
    linarith
  -- lane characterizations per block
  have hA : ∀ it ∈ stackItems ssl (-sep) y0b southL,
      ∃ k : ℕ, k < southL.length ∧ it.2.1 = y0b - k * sep := by
    intro it hit
    obtain ⟨⟨k, hk, hl⟩, -⟩ := stackItems_lane ssl (-sep) southL y0b it hit
    exact ⟨k, hk, by rw [hl]; ring⟩
  have hD : ∀ it ∈ backItems secL (-sep) sep
      (y0b - (southL.length : ℝ) * sep) s2 tsL,
      ∃ k : ℕ, southL.length ≤ k ∧ it.2.1 = y0b - k * sep := by
    intro it hit
    obtain ⟨⟨k, -, hl⟩, -⟩ := backItems_lane secL (-sep) sep tsL
      (y0b - (southL.length : ℝ) * sep) s2 it hit
    refine ⟨southL.length + k, Nat.le_add_right _ _, ?_⟩
    rw [hl]
    push_cast
    ring
  have hB : ∀ it ∈ stackItems ssl sep y0t northL,
      ∃ k : ℕ, k < northL.length ∧ it.2.1 = y0t + k * sep := by
    intro it hit
    obtain ⟨⟨k, hk, hl⟩, -⟩ := stackItems_lane ssl sep northL y0t it hit
    exact ⟨k, hk, hl⟩
  have hC : ∀ it ∈ backItems secL sep sep
      (y0t + (northL.length : ℝ) * sep) s1 tnL,
      ∃ k : ℕ, northL.length ≤ k ∧ it.2.1 = y0t + k * sep := by
    intro it hit
    obtain ⟨⟨k, -, hl⟩, -⟩ := backItems_lane secL sep sep tnL
      (y0t + (northL.length : ℝ) * sep) s1 it hit
    refine ⟨northL.length + k, Nat.le_add_right _ _, ?_⟩
    rw [hl]
    push_cast
    ring
  have hF : ∀ it ∈ (fwdL.map fun p => (p, coord p, ssl)),
      loY ≤ it.2.1 ∧ it.2.1 ≤ hiY := by
    intro it hit
    rw [List.mem_map] at hit
    obtain ⟨p, hp, hpe⟩ := hit
    subst hpe
    exact hf p hp
  -- generic cross bounds
  have hdown_le : ∀ (k : ℕ), y0b - (k : ℝ) * sep ≤ y0b := by
    intro k
    have : (0 : ℝ) ≤ (k : ℝ) * sep :=
      mul_nonneg (Nat.cast_nonneg k) (le_of_lt hsep)
    linarith
  have hup_ge : ∀ (k : ℕ), y0t ≤ y0t + (k : ℝ) * sep := by
    intro k
    have : (0 : ℝ) ≤ (k : ℝ) * sep :=
      mul_nonneg (Nat.cast_nonneg k) (le_of_lt hsep)
    linarith
  have hdown_chain : ∀ (k k' : ℕ), k ≠ k' →
      sep ≤ |y0b - (k : ℝ) * sep - (y0b - (k' : ℝ) * sep)| := by
    intro k k' hkk
    have h := abs_lane_chain y0b (-sep) k k' sep hstepn hkk
    rw [show y0b + (k : ℝ) * -sep = y0b - (k : ℝ) * sep by ring,
      show y0b + (k' : ℝ) * -sep = y0b - (k' : ℝ) * sep by ring] at h
    exact h
  have hup_chain : ∀ (k k' : ℕ), k ≠ k' →
      sep ≤ |y0t + (k : ℝ) * sep - (y0t + (k' : ℝ) * sep)| :=
    fun k k' hkk => abs_lane_chain y0t sep k k' sep hstepp hkk
  -- cross-block LaneSep facts
  have hAF : ∀ (k : ℕ) (f : ℝ), loY ≤ f → sep ≤ |y0b - (k : ℝ) * sep - f| :=
    fun k f hfl => key _ _ (by have := hdown_le k; linarith)
  have hAB : ∀ (k k' : ℕ),
      sep ≤ |y0b - (k : ℝ) * sep - (y0t + (k' : ℝ) * sep)| :=
    fun k k' => key _ _ (by have := hdown_le k; have := hup_ge k'; linarith)
  have hFB : ∀ (f : ℝ) (k : ℕ), f ≤ hiY → sep ≤ |f - (y0t + (k : ℝ) * sep)| :=
    fun f k hfh => key _ _ (by have := hup_ge k; linarith)
  rw [List.pairwise_append, List.pairwise_append, List.pairwise_append,
    List.pairwise_append]
  refine ⟨⟨⟨⟨stackItems_pairwise ssl (-sep) sep hstepn southL y0b, ?_, ?_⟩,
    stackItems_pairwise ssl sep sep hstepp northL y0t, ?_⟩,
    backItems_pairwise secL sep sep sep hstepp tnL _ s1, ?_⟩,
    backItems_pairwise secL (-sep) sep sep hstepn tsL _ s2, ?_⟩
  · -- forward block pairwise
    rw [List.pairwise_map]
    exact hfp.imp fun h => h
  · -- A vs F
    intro a ha b hb'
    obtain ⟨k, -, hl⟩ := hA a ha
    obtain ⟨hfl, -⟩ := hF b hb'
    unfold LaneSep
    rw [hl]
    exact hAF k _ hfl
  · -- (A ++ F) vs B
    intro a ha b hb'
    obtain ⟨k', -, hl'⟩ := hB b hb'
    rw [List.mem_append] at ha
    unfold LaneSep
    rcases ha with ha | ha
    · obtain ⟨k, -, hl⟩ := hA a ha
      rw [hl, hl']
      exact hAB k k'
    · obtain ⟨-, hfh⟩ := hF a ha
      rw [hl']
      exact hFB _ k' hfh
  · -- (A ++ F ++ B) vs C
    intro a ha b hb'
    obtain ⟨k', hk', hl'⟩ := hC b hb'
    rw [List.mem_append, List.mem_append] at ha
    unfold LaneSep
    rcases ha with (ha | ha) | ha
    · obtain ⟨k, -, hl⟩ := hA a ha
      rw [hl, hl']
      exact hAB k k'
    · obtain ⟨-, hfh⟩ := hF a ha
      rw [hl']
      exact hFB _ k' hfh
    · obtain ⟨k, hk, hl⟩ := hB a ha
      rw [hl, hl']
      exact hup_chain k k' (by omega)
  · -- (A ++ F ++ B ++ C) vs D
    intro a ha b hb'
    obtain ⟨k', hk', hl'⟩ := hD b hb'
    rw [List.mem_append, List.mem_append, List.mem_append] at ha
    unfold LaneSep
    rcases ha with ((ha | ha) | ha) | ha
    · obtain ⟨k, hk, hl⟩ := hA a ha
      rw [hl, hl']
      exact hdown_chain k k' (by omega)
    · obtain ⟨hfl, -⟩ := hF a ha
      have h2 := hdown_le k'
      rw [hl']
      exact key2 _ _ (by linarith)
    · obtain ⟨k, -, hl⟩ := hB a ha
      rw [hl, hl']
      have h1 := hup_ge k
      have h2 := hdown_le k'
      exact key2 _ _ (by linarith)
    · obtain ⟨k, -, hl⟩ := hC a ha
      rw [hl, hl']
      have h1 := hup_ge k
      have h2 := hdown_le k'
      exact key2 _ _ (by linarith)

theorem processX_ok {E R : Type} (rf : Port → Port → ℝ → ℝ → Except E R)
    (mk : Port → ℝ → Port) (radius : ℝ) :
    ∀ (items : List Item) (rs : List R) (qs : List Port),
      processX rf mk radius items = .ok (rs, qs) →
      rs.length = items.length ∧
      qs = items.map fun it => flipped (mk it.1 it.2.1) := by
  intro items
  induction items with
  | nil =>
    intro rs qs h
    rw [processX] at h
    simp only [Except.ok.injEq, Prod.mk.injEq] at h
    obtain ⟨h1, h2⟩ := h
    simp [← h1, ← h2]
  | cons it rest ih =>
    intro rs qs h
    obtain ⟨p, lane, ssl⟩ := it
    rw [processX] at h
    cases hrf : rf p (mk p lane) ssl radius with
    | error e => rw [hrf] at h; simp at h
    | ok r =>
      rw [hrf] at h
      cases hrec : processX rf mk radius rest with
      | error e => rw [hrec] at h; simp at h
      | ok res =>
        obtain ⟨rs0, qs0⟩ := res
        rw [hrec] at h
        simp only [Except.ok.injEq, Prod.mk.injEq] at h
        obtain ⟨h1, h2⟩ := h
        obtain ⟨ih1, ih2⟩ := ih rs0 qs0 hrec
        subst h1 h2
        simp [ih1, ih2]

theorem processY_ok {E R : Type} (rf : Port → Port → ℝ → ℝ → Except E R)
    (mk : Port → ℝ → Port) (radius : ℝ) :
    ∀ (items : List Item) (rs : List R) (qs : List Port),
      processY rf mk radius items = .ok (rs, qs) →
      rs.length ≤ items.length ∧
      qs = items.map fun it => flipped (mk it.1 it.2.1) := by
  intro items
  induction items with
  | nil =>
    intro rs qs h
    rw [processY] at h
    simp only [Except.ok.injEq, Prod.mk.injEq] at h
    obtain ⟨h1, h2⟩ := h
    simp [← h1, ← h2]
  | cons it rest ih =>
    intro rs qs h
    obtain ⟨p, lane, ssl⟩ := it
    rw [processY] at h
    by_cases hco : ((mk p lane).center.1 - p.center.1) ^ 2 +
        ((mk p lane).center.2 - p.center.2) ^ 2 < 1e-12
    · rw [if_pos hco] at h
      cases hrec : processY rf mk radius rest with
      | error e => rw [hrec] at h; simp at h
      | ok res =>
        obtain ⟨rs0, qs0⟩ := res
        rw [hrec] at h
        simp only [Except.ok.injEq, Prod.mk.injEq] at h
        obtain ⟨h1, h2⟩ := h
        obtain ⟨ih1, ih2⟩ := ih rs0 qs0 hrec
        subst h1 h2
        simp only [List.map_cons, List.length_cons]
        exact ⟨ih1.trans (Nat.le_succ _), by simp [ih2]⟩
    · rw [if_neg hco] at h
      cases hrf : rf p (mk p lane) ssl radius with
      | error e => rw [hrf] at h; simp at h
      | ok r =>
        rw [hrf] at h
        cases hrec : processY rf mk radius rest with
        | error e => rw [hrec] at h; simp at h
        | ok res =>
          obtain ⟨rs0, qs0⟩ := res
          rw [hrec] at h
          simp only [Except.ok.injEq, Prod.mk.injEq] at h
          obtain ⟨h1, h2⟩ := h
          obtain ⟨ih1, ih2⟩ := ih rs0 qs0 hrec
          subst h1 h2
          simp only [List.map_cons, List.length_cons]
          exact ⟨Nat.succ_le_succ ih1, by simp [ih2]⟩

/-- The y-variant never produces a raw inner error: every failure is its own
`ValueError` or the wrapped could-not-connect error. -/
theorem processY_error {E R : Type} (rf : Port → Port → ℝ → ℝ → Except E R)
    (mk : Port → ℝ → Port) (radius : ℝ) :
    ∀ (items : List Item) (e : BundleError E),
      processY rf mk radius items = .error e →
      ∃ a b e0, e = .couldNotConnect a b e0 := by
  intro items
  induction items with
  | nil => intro e h; rw [processY] at h; simp at h
  | cons it rest ih =>
    intro e h
    obtain ⟨p, lane, ssl⟩ := it
    rw [processY] at h
    by_cases hco : ((mk p lane).center.1 - p.center.1) ^ 2 +
        ((mk p lane).center.2 - p.center.2) ^ 2 < 1e-12
    · rw [if_pos hco] at h
      cases hrec : processY rf mk radius rest with
      | error e0 =>
        rw [hrec] at h
        simp only [Except.error.injEq] at h
        subst h
        exact ih e0 hrec
      | ok res => obtain ⟨rs0, qs0⟩ := res; rw [hrec] at h; simp at h
    · rw [if_neg hco] at h
      cases hrf : rf p (mk p lane) ssl radius with
      | error e0 =>
        rw [hrf] at h
        simp only [Except.error.injEq] at h
        exact ⟨_, _, _, h.symm⟩
      | ok r =>
        rw [hrf] at h
        cases hrec : processY rf mk radius rest with
        | error e0 =>
          rw [hrec] at h
          simp only [Except.error.injEq] at h
          subst h
          exact ih e0 hrec
        | ok res => obtain ⟨rs0, qs0⟩ := res; rw [hrec] at h; simp at h

theorem foldl_min_le_init : ∀ (xs : List ℝ) (x : ℝ), xs.foldl min x ≤ x := by
  intro xs
  induction xs with
  | nil => intro x; exact le_refl x
  | cons b bs ih =>
    intro x
    calc bs.foldl min (min x b) ≤ min x b := ih (min x b)
      _ ≤ x := min_le_left _ _

theorem foldl_min_le_mem : ∀ (xs : List ℝ) (x y : ℝ), y ∈ xs → xs.foldl min x ≤ y := by
  intro xs
  induction xs with
  | nil => intro x y hy; simp at hy
  | cons b bs ih =>
    intro x y hy
    rw [List.mem_cons] at hy
    rcases hy with hy | hy
    · subst hy
      calc bs.foldl min (min x y) ≤ min x y := foldl_min_le_init bs _
        _ ≤ y := min_le_right _ _
    · exact ih (min x b) y hy

theorem listMin_le (l : List ℝ) (y : ℝ) (hy : y ∈ l) : listMin l ≤ y := by
  cases l with
  | nil => simp at hy
  | cons x xs =>
    rw [List.mem_cons] at hy
    rw [listMin]
    rcases hy with hy | hy
    · subst hy; exact foldl_min_le_init xs y
    · exact foldl_min_le_mem xs x y hy

theorem init_le_foldl_max : ∀ (xs : List ℝ) (x : ℝ), x ≤ xs.foldl max x := by
  intro xs
  induction xs with
  | nil => intro x; exact le_refl x
  | cons b bs ih =>
    intro x
    calc x ≤ max x b := le_max_left _ _
      _ ≤ bs.foldl max (max x b) := ih (max x b)

theorem mem_le_foldl_max : ∀ (xs : List ℝ) (x y : ℝ), y ∈ xs → y ≤ xs.foldl max x := by
  intro xs
  induction xs with
  | nil => intro x y hy; simp at hy
  | cons b bs ih =>
    intro x y hy
    rw [List.mem_cons] at hy
    rcases hy with hy | hy
    · subst hy
      calc y ≤ max x y := le_max_right _ _
        _ ≤ bs.foldl max (max x y) := init_le_foldl_max bs _
    · exact ih (max x b) y hy

theorem le_listMax (l : List ℝ) (y : ℝ) (hy : y ∈ l) : y ≤ listMax l := by
  cases l with
  | nil => simp at hy
  | cons x xs =>
    rw [List.mem_cons] at hy
    rw [listMax]
    rcases hy with hy | hy
    · subst hy; exact init_le_foldl_max xs y
    · exact mem_le_foldl_max xs x y hy

theorem listMin_le_listMax (l : List ℝ) (hne : l ≠ []) : listMin l ≤ listMax l := by
  cases l with
  | nil => exact absurd rfl hne
  | cons x xs =>
    calc listMin (x :: xs) ≤ x := by rw [listMin]; exact foldl_min_le_init xs x
      _ ≤ listMax (x :: xs) := by rw [listMax]; exact init_le_foldl_max xs x

/-- A port facing one of the four cardinal directions. -/
def Cardinal (p : Port) : Prop :=
  p.orientation = 0 ∨ p.orientation = 90 ∨ p.orientation = 180 ∨
    p.orientation = 270

theorem length_filter_cons (P : Port → Bool) (p : Port) (l : List Port) :
    (List.filter P (p :: l)).length = (P p).toNat + (List.filter P l).length := by
  rw [List.filter_cons]
  cases hP : P p <;> simp <;> omega

/-- Four boolean buckets of which exactly one holds per element partition a
list. -/
theorem filter_four_length (P1 P2 P3 P4 : Port → Bool) (l : List Port)
    (h : ∀ p ∈ l,
      (P1 p).toNat + (P2 p).toNat + (P3 p).toNat + (P4 p).toNat = 1) :
    (l.filter P1).length + (l.filter P2).length + (l.filter P3).length +
      (l.filter P4).length = l.length := by
  induction l with
  | nil => simp
  | cons p l ih =>
    have hp := h p (List.mem_cons_self p l)
    have ihl := ih fun q hq => h q (List.mem_cons_of_mem p hq)
    rw [length_filter_cons, length_filter_cons, length_filter_cons,
      length_filter_cons, List.length_cons]
    omega

/-- On cardinal ports the four exact-orientation buckets of
`route_ports_to_x` partition the input list. -/
theorem bucket_lengths_x (l : List Port) (h : ∀ p ∈ l, Cardinal p) :
    (l.filter fun p => decide (p.orientation = 90)).length +
    (l.filter fun p => decide (p.orientation = 270)).length +
    (l.filter fun p => decide (p.orientation = 0)).length +
    (l.filter fun p => decide (p.orientation = 180)).length = l.length := by
  refine filter_four_length _ _ _ _ l fun p hp => ?_
  rcases h p hp with h0 | h0 | h0 | h0 <;> rw [h0]
  · rw [decide_eq_false (by norm_num : ¬((0 : ℝ) = 90)),
      decide_eq_false (by norm_num : ¬((0 : ℝ) = 270)),
      decide_eq_true (by norm_num : (0 : ℝ) = 0),
      decide_eq_false (by norm_num : ¬((0 : ℝ) = 180))]
    rfl
  · rw [decide_eq_true (by norm_num : (90 : ℝ) = 90),
      decide_eq_false (by norm_num : ¬((90 : ℝ) = 270)),
      decide_eq_false (by norm_num : ¬((90 : ℝ) = 0)),
      decide_eq_false (by norm_num : ¬((90 : ℝ) = 180))]
    rfl
  · rw [decide_eq_false (by norm_num : ¬((180 : ℝ) = 90)),
      decide_eq_false (by norm_num : ¬((180 : ℝ) = 270)),
      decide_eq_false (by norm_num : ¬((180 : ℝ) = 0)),
      decide_eq_true (by norm_num : (180 : ℝ) = 180)]
    rfl
  · rw [decide_eq_false (by norm_num : ¬((270 : ℝ) = 90)),
      decide_eq_true (by norm_num : (270 : ℝ) = 270),
      decide_eq_false (by norm_num : ¬((270 : ℝ) = 0)),
      decide_eq_false (by norm_num : ¬((270 : ℝ) = 180))]
    rfl

/-- On cardinal ports the four 45°-band buckets of `route_ports_to_y`
partition the input list. -/
theorem bucket_lengths_y (l : List Port) (h : ∀ p ∈ l, Cardinal p) :
    (l.filter fun p =>
      decide (90 - (45 : ℝ) < p.orientation ∧ p.orientation < 90 + 45)).length +
    (l.filter fun p =>
      decide (270 - (45 : ℝ) < p.orientation ∧ p.orientation < 270 + 45)).length +
    (l.filter fun p =>
      decide (p.orientation < (45 : ℝ) ∨ p.orientation > 360 - 45)).length +
    (l.filter fun p =>
      decide (p.orientation < 180 + (45 : ℝ) ∧ p.orientation > 180 - 45)).length
      = l.length := by
  refine filter_four_length _ _ _ _ l fun p hp => ?_
  rcases h p hp with h0 | h0 | h0 | h0 <;> rw [h0]
  · rw [decide_eq_false (by norm_num :
        ¬(90 - (45 : ℝ) < 0 ∧ (0 : ℝ) < 90 + 45)),
      decide_eq_false (by norm_num :
        ¬(270 - (45 : ℝ) < 0 ∧ (0 : ℝ) < 270 + 45)),
      decide_eq_true (by norm_num :
        ((0 : ℝ) < (45 : ℝ) ∨ (0 : ℝ) > 360 - 45)),
      decide_eq_false (by norm_num :
        ¬((0 : ℝ) < 180 + (45 : ℝ) ∧ (0 : ℝ) > 180 - 45))]
    rfl
  · rw [decide_eq_true (by norm_num :
        (90 - (45 : ℝ) < 90 ∧ (90 : ℝ) < 90 + 45)),
      decide_eq_false (by norm_num :
        ¬(270 - (45 : ℝ) < 90 ∧ (90 : ℝ) < 270 + 45)),
      decide_eq_false (by norm_num :
        ¬((90 : ℝ) < (45 : ℝ) ∨ (90 : ℝ) > 360 - 45)),
      decide_eq_false (by norm_num :
        ¬((90 : ℝ) < 180 + (45 : ℝ) ∧ (90 : ℝ) > 180 - 45))]
    rfl
  · rw [decide_eq_false (by norm_num :
        ¬(90 - (45 : ℝ) < 180 ∧ (180 : ℝ) < 90 + 45)),
      decide_eq_false (by norm_num :
        ¬(270 - (45 : ℝ) < 180 ∧ (180 : ℝ) < 270 + 45)),
      decide_eq_false (by norm_num :
        ¬((180 : ℝ) < (45 : ℝ) ∨ (180 : ℝ) > 360 - 45)),
      decide_eq_true (by norm_num :
        ((180 : ℝ) < 180 + (45 : ℝ) ∧ (180 : ℝ) > 180 - 45))]
    rfl
  · rw [decide_eq_false (by norm_num :
        ¬(90 - (45 : ℝ) < 270 ∧ (270 : ℝ) < 90 + 45)),
      decide_eq_true (by norm_num :
        (270 - (45 : ℝ) < 270 ∧ (270 : ℝ) < 270 + 45)),
      decide_eq_false (by norm_num :
        ¬((270 : ℝ) < (45 : ℝ) ∨ (270 : ℝ) > 360 - 45)),
      decide_eq_false (by norm_num :
        ¬((270 : ℝ) < 180 + (45 : ℝ) ∧ (270 : ℝ) > 180 - 45))]
    rfl

/-- Members of an exact-orientation bucket have that orientation. -/
theorem mem_filter_orient {l : List Port} {p : Port} {v : ℝ}
    (h : p ∈ l.filter fun q => decide (q.orientation = v)) :
    p.orientation = v ∧ p ∈ l := by
  rw [List.mem_filter] at h
  exact ⟨of_decide_eq_true h.2, h.1⟩

/-- Counting helper for the x-variant: a successful call returns one route
and one new port per input port. -/
theorem route_ports_to_x_counts {E R : Type}
    (rf : Port → Port → ℝ → ℝ → Except E R) (ports : List Port)
    (hcard : ∀ p ∈ ports, Cardinal p) (x : ℝ ⊕ String)
    (sep radius eb et el : ℝ) (y0b y0t : Option ℝ) (split : ℕ) (ssl : ℝ)
    (dxs dys : Option ℝ) (rs : List R) (qs : List Port)
    (h : route_ports_to_x rf ports x sep radius eb et el y0b y0t split ssl
      dxs dys = .ok (rs, qs)) :
    rs.length = ports.length ∧ qs.length = ports.length := by
  simp only [route_ports_to_x] at h
  split at h
  · simp at h
  next hne =>
    split at h
    · simp at h
    next xr hxr =>
      split at h
      · simp at h
      next keyNS fwd bwd angle hcfg =>
        split at h
        · simp at h
        next res hproc =>
          obtain ⟨rs0, qs0⟩ := res
          simp only [Except.ok.injEq, Prod.mk.injEq] at h
          obtain ⟨h1, h2⟩ := h
          subst h1 h2
          obtain ⟨hlen, hmap⟩ := processX_ok _ _ _ _ _ _ hproc
          have hb := bucket_lengths_x ports hcard
          have hfb : fwd.length + bwd.length =
              (ports.filter fun p => decide (p.orientation = 0)).length +
              (ports.filter fun p => decide (p.orientation = 180)).length := by
            split at hcfg
            · simp only [Option.some.injEq, Prod.mk.injEq] at hcfg
              obtain ⟨-, hf, hb2, -⟩ := hcfg
              subst hf hb2
              omega
            · split at hcfg
              · simp only [Option.some.injEq, Prod.mk.injEq] at hcfg
                obtain ⟨-, hf, hb2, -⟩ := hcfg
                subst hf hb2
                omega
              · simp at hcfg
          constructor
          · rw [hlen]
            simp only [List.length_append, stackItems_length, backItems_length,
              sortByKey_length, List.length_map, List.length_take,
              List.length_drop]
            omega
          · rw [hmap]
            simp only [List.length_map, List.length_append, stackItems_length,
              backItems_length, sortByKey_length, List.length_take,
              List.length_drop]
            omega

/-- Counting helper for the y-variant: a successful call returns one new
port per input port and at most one route per input port. -/
theorem route_ports_to_y_counts {E R : Type}
    (rf : Port → Port → ℝ → ℝ → Except E R) (ports : List Port)
    (hcard : ∀ p ∈ ports, Cardinal p) (y : ℝ ⊕ String)
    (sep radius el exl exr : ℝ) (x0l x0r : Option ℝ) (split : ℕ) (ssl : ℝ)
    (dxs dys : Option ℝ) (rs : List R) (qs : List Port)
    (h : route_ports_to_y rf ports y sep radius x0l x0r el exl exr split ssl
      dxs dys = .ok (rs, qs)) :
    qs.length = ports.length ∧ rs.length ≤ ports.length := by
  simp only [route_ports_to_y] at h
  split at h
  · simp at h
  next hne =>
    split at h
    · simp at h
    next yv hyv =>
      split at h
      · simp at h
      next keyWE fwd bwd angle hcfg =>
        obtain ⟨hlen, hmap⟩ := processY_ok _ _ _ _ _ _ h
        have hb := bucket_lengths_y ports hcard
        have hfb : fwd.length + bwd.length =
            (ports.filter fun p =>
              decide (90 - (45 : ℝ) < p.orientation ∧
                p.orientation < 90 + 45)).length +
            (ports.filter fun p =>
              decide (270 - (45 : ℝ) < p.orientation ∧
                p.orientation < 270 + 45)).length := by
          split at hcfg
          · simp only [Option.some.injEq, Prod.mk.injEq] at hcfg
            obtain ⟨-, hf, hb2, -⟩ := hcfg
            subst hf hb2
            omega
          · split at hcfg
            · simp only [Option.some.injEq, Prod.mk.injEq] at hcfg
              obtain ⟨-, hf, hb2, -⟩ := hcfg
              subst hf hb2
              omega
            · simp at hcfg
        constructor
        · rw [hmap]
          simp only [List.length_map, List.length_append, stackItems_length,
            backItems_length, sortByKey_length, List.length_take,
            List.length_drop]
          omega
        · refine hlen.trans ?_
          simp only [List.length_append, stackItems_length, backItems_length,
            sortByKey_length, List.length_map, List.length_take,
            List.length_drop]
          omega

/-- Error-shape helper for the y-variant: every failure is either the
router's own `ValueError`/`TypeError` or the wrapped could-not-connect
error; a raw inner exception is never surfaced. -/
theorem route_ports_to_y_no_raw {E R : Type}
    (rf : Port → Port → ℝ → ℝ → Except E R) (ports : List Port)
    (y : ℝ ⊕ String) (sep radius el exl exr : ℝ) (x0l x0r : Option ℝ)
    (split : ℕ) (ssl : ℝ) (dxs dys : Option ℝ) (e : BundleError E)
    (h : route_ports_to_y rf ports y sep radius x0l x0r el exl exr split ssl
      dxs dys = .error e) :
    (∃ s, e = .invalid s) ∨ ∃ a b e0, e = .couldNotConnect a b e0 := by
  simp only [route_ports_to_y] at h
  split at h
  · simp only [Except.error.injEq] at h
    exact Or.inl ⟨_, h.symm⟩
  next hne =>
    split at h
    next e1 heq =>
      simp only [Except.error.injEq] at h
      subst h
      split at heq
      · simp at heq
      · simp at heq
      · simp at heq
      · simp only [Except.error.injEq] at heq
        exact Or.inl ⟨_, heq.symm⟩
    next yv hyv =>
      split at h
      · simp only [Except.error.injEq] at h
        exact Or.inl ⟨_, h.symm⟩
      next keyWE fwd bwd angle hcfg =>
        exact Or.inr (processY_error _ _ _ _ _ h)

/-- Evaluation helper: a single south-facing port routed to the horizontal
line through its own position is skipped — no route, and the emitted port is
the port itself. -/
theorem route_y_singleton_south {E R : Type}
    (rf : Port → Port → ℝ → ℝ → Except E R) (p : Port)
    (h270 : p.orientation = 270) :
    route_ports_to_y rf [p] (.inl p.center.2) = .ok ([], [p]) := by
  obtain ⟨nm, ⟨px, py⟩, ori, w⟩ := p
  simp only at h270
  subst h270
  have hfm : fmod ((90 : ℝ) + 180) 360 = 270 := by
    rw [show (90 : ℝ) + 180 = 270 by norm_num]
    rw [fmod_360_self 270 (by norm_num) (by norm_num)]
  simp only [route_ports_to_y, List.filter_cons, List.filter_nil,
    decide_eq_true_eq, List.isEmpty_cons, listMin, listMax, List.map_cons,
    List.map_nil, List.foldl_cons, List.foldl_nil, sortByKey, insertK,
    stackItems, backItems, List.take_nil, List.drop_nil, List.nil_append,
    List.append_nil, processY, flipped, hfm]
  norm_num
  simp only [sortByKey, insertK, stackItems, backItems, List.map_cons,
    List.map_nil, List.length_nil, List.nil_append, List.append_nil,
    List.take_zero, List.drop_zero, processY, flipped, hfm]
  norm_num

/-! ### Concrete ports used by witnesses and counterexamples -/

/-- East-facing port at the origin. -/
def pE : Port := ⟨"o1", (0, 0), 0, 1⟩

/-- East-facing port 50 units ahead of `pE`. -/
def pE50 : Port := ⟨"o2", (50, 0), 0, 1⟩

/-- West-facing port 50 units east of the origin. -/
def pW50 : Port := ⟨"o2", (50, 0), 180, 1⟩

/-- North-facing port south-west of the origin. -/
def pNsw : Port := ⟨"o2", (-10, -10), 90, 1⟩

/-- East-facing port 50 units north of `pE`. -/
def pEn : Port := ⟨"o2", (0, 50), 0, 1⟩

/-- South-facing port at the origin. -/
def pS : Port := ⟨"o1", (0, 0), 270, 1⟩

/-- West-facing port at (10, 0). -/
def pW10 : Port := ⟨"o1", (10, 0), 180, 1⟩

/-- North-facing port at (0, 5). -/
def pN5 : Port := ⟨"o1", (0, 5), 90, 1⟩

/-- East-facing port at (0, 1), one unit above `pE`. -/
def pE1 : Port := ⟨"o2", (0, 1), 0, 1⟩

/-- A far-away port whose orientation 90.0004 *rounds* to a relative
orientation of 90 with respect to `pE` but is not an exact quarter turn. -/
def pMh2 : Port := ⟨"o2", (5000000, 20), 90.0004, 1⟩

/-- A routing function that always succeeds (used to drive the bundle
router in concrete runs). -/
def rfOk : Port → Port → ℝ → ℝ → Except Unit Unit := fun _ _ _ _ => .ok ()

/-- A routing function that always fails (an inner exception). -/
def rfFail : Port → Port → ℝ → ℝ → Except Unit Unit := fun _ _ _ _ => .error ()

theorem delta_pE_pE50 : deltaOrientation pE pE50 = 0 := by
  show round3 |fmod ((0 : ℝ) - 0) 360| = 0
  rw [show (0 : ℝ) - 0 = 0 by ring, fmod_360_self 0 le_rfl (by norm_num),
    abs_zero, round3_zero]

theorem delta_pE_pEn : deltaOrientation pE pEn = 0 := by
  show round3 |fmod ((0 : ℝ) - 0) 360| = 0
  rw [show (0 : ℝ) - 0 = 0 by ring, fmod_360_self 0 le_rfl (by norm_num),
    abs_zero, round3_zero]

theorem fmod_360_360 : fmod (360 : ℝ) 360 = 0 := by
  have h := fmod_eq 360 360 1 (by norm_num) (by push_cast; norm_num)
    (by push_cast; norm_num)
  rw [h]
  norm_num

/-- Evaluation: one east-facing port bundled to `"east"` produces exactly one
route and one new port at `(11, 0)` facing 0°. -/
theorem route_x_east_ok :
    route_ports_to_x rfOk [pE] (.inr "east") =
      .ok ([()], [⟨"o1_new", (11, 0), 0, 1⟩]) := by
  norm_num [route_ports_to_x, rfOk, pE, List.filter_cons, List.filter_nil,
    decide_eq_true_eq, List.isEmpty_cons, listMin, listMax, List.map_cons,
    List.map_nil, List.foldl_cons, List.foldl_nil, sortByKey, insertK,
    stackItems, backItems, List.take_zero, List.drop_zero, List.nil_append,
    List.append_nil, processX, flipped, fmod_360_360, max_self]
  rfl

/-- Evaluation: with a failing routing function, the x-variant surfaces the
raw inner exception. -/
theorem route_x_east_fail :
    route_ports_to_x rfFail [pE] (.inr "east") = .error (.inner ()) := by
  norm_num [route_ports_to_x, rfFail, pE, List.filter_cons, List.filter_nil,
    decide_eq_true_eq, List.isEmpty_cons, listMin, listMax, List.map_cons,
    List.map_nil, List.foldl_cons, List.foldl_nil, sortByKey, insertK,
    stackItems, backItems, List.take_zero, List.drop_zero, List.nil_append,
    List.append_nil, processX, flipped, fmod_360_360, max_self]

/-- Evaluation: a west-facing port whose computed x-variant target has
exactly its own position and orientation is still routed (one route is
emitted). -/
theorem route_x_coincident :
    route_ports_to_x rfOk [pW10] (.inl 15) 10 10 0 0 (-5) none (some 0) 0
      0.01 none none = .ok ([()], [⟨"o1_new", (10, 0), 0, 1⟩]) := by
  norm_num [route_ports_to_x, rfOk, pW10, List.filter_cons, List.filter_nil,
    decide_eq_true_eq, List.isEmpty_cons, listMin, listMax, List.map_cons,
    List.map_nil, List.foldl_cons, List.foldl_nil, sortByKey, insertK,
    stackItems, backItems, List.take_zero, List.drop_zero, List.nil_append,
    List.append_nil, processX, flipped, fmod_360_360, max_self]
  rfl

/-- Evaluation: with a failing routing function, the y-variant fails with the
wrapped could-not-connect error naming the two ports. -/
theorem route_y_north_fail :
    route_ports_to_y rfFail [pN5] (.inl 0) =
      .error (.couldNotConnect "o1" "o1" ()) := by
  norm_num [route_ports_to_y, rfFail, pN5, List.filter_cons, List.filter_nil,
    decide_eq_true_eq, List.isEmpty_cons, listMin, listMax, List.map_cons,
    List.map_nil, List.foldl_cons, List.foldl_nil, sortByKey, insertK,
    stackItems, backItems, List.take_zero, List.drop_zero, List.nil_append,
    List.append_nil, processY, flipped, max_self]

/-- Evaluation: two east-facing ports one unit apart bundled to `"east"`
keep their own lateral coordinates: the new ports are only one unit apart. -/
theorem route_x_two_east :
    route_ports_to_x rfOk [pE, pE1] (.inr "east") =
      .ok ([(), ()],
        [⟨"o1_new", (11, 0), 0, 1⟩, ⟨"o2_new", (11, 1), 0, 1⟩]) := by
  norm_num [route_ports_to_x, rfOk, pE, pE1, List.filter_cons, List.filter_nil,
    decide_eq_true_eq, List.isEmpty_cons, listMin, listMax, List.map_cons,
    List.map_nil, List.foldl_cons, List.foldl_nil, sortByKey, insertK,
    stackItems, backItems, List.take_zero, List.drop_zero, List.nil_append,
    List.append_nil, processX, flipped, fmod_360_360, max_self]
  exact ⟨rfl, rfl⟩

/-! ### Claim theorems -/

/-- **C10** — When `route_sharp` is called with `path_type="manhattan"`, the
bend radius handed to `path_manhattan` is always
`max(port1.width, port2.width)`; the keyword arguments (in particular any
`radius` the caller supplies) are ignored for this path type. -/
theorem route_sharp_manhattan_radius (port1 port2 : Port)
    (manual_path : Option (List Pt)) (kw : SharpKwargs) :
    route_sharp_path port1 port2 "manhattan" manual_path kw =
      (path_manhattan port1 port2 (max port1.width port2.width)).mapError
        .pathErr := rfl

/-- **C7** — Whenever a synthesizer returns a waypoint path (its precondition
holds), the path has the fixed number of points of its shape: straight 2,
L 3, V 3, U 4, Z 4, J 5, C 6. -/
theorem path_point_counts (p1 p2 : Port) (l1 l2 lf : ℝ) :
    okLength (path_straight p1 p2) 2 ∧ okLength (path_L p1 p2) 3 ∧
    okLength (path_V p1 p2) 3 ∧ okLength (path_U p1 p2 l1) 4 ∧
    (path_Z p1 p2 l1 l2).length = 4 ∧ okLength (path_J p1 p2 l1 l2) 5 ∧
    okLength (path_C p1 p2 l1 lf l2) 6 := by
  refine ⟨?_, ?_, ?_, ?_, rfl, ?_, ?_⟩ <;>
    · simp only [path_straight, path_L, path_V, path_U, path_J, path_C]
      split <;> simp [okLength]

/-- **C8 (amended)** — The shape-specific extra-length parameters default to
the values in the source: 100 for `path_C`'s `length1`/`left1`/`length2` and
`path_Z`'s `length1`/`length2`, but 200 for `path_U`'s `length1` and
`path_J`'s `length1`/`length2`. -/
theorem path_extra_length_defaults (p1 p2 : Port) :
    path_U p1 p2 = path_U p1 p2 200 ∧ path_J p1 p2 = path_J p1 p2 200 200 ∧
    path_C p1 p2 = path_C p1 p2 100 100 100 ∧
    path_Z p1 p2 = path_Z p1 p2 100 100 :=
  ⟨rfl, rfl, rfl, rfl⟩

/-- **C8 counterexample** — `path_U`'s `length1` does not default to 100: on
a concrete valid pair of ports, calling `path_U` without `length1` gives a
different path than calling it with `length1 = 100` (the default is 200). -/
theorem path_U_default_not_100 : path_U pE pEn ≠ path_U pE pEn 100 := by
  have hc1 : Real.cos (pE.orientation * π / 180) = 1 := by
    rw [show pE.orientation = 0 from rfl, show (0 : ℝ) * π / 180 = 0 by ring,
      Real.cos_zero]
  have hs1 : Real.sin (pE.orientation * π / 180) = 0 := by
    rw [show pE.orientation = 0 from rfl, show (0 : ℝ) * π / 180 = 0 by ring,
      Real.sin_zero]
  have hcond : ¬¬(deltaOrientation pE pEn = 0 ∨ deltaOrientation pE pEn = 180 ∨
      deltaOrientation pE pEn = 360) := by
    rw [delta_pE_pEn]
    norm_num
  intro heq
  simp only [path_U] at heq
  rw [if_neg hcond, if_neg hcond, hc1, hs1] at heq
  simp only [Except.ok.injEq, List.cons.injEq] at heq
  obtain ⟨-, h2, -⟩ := heq
  have h1 := congrArg Prod.fst h2
  simp only [Prod.fst_add, Prod.smul_fst, smul_eq_mul] at h1
  norm_num at h1

/-- **C4 (amended)** — For input ports facing cardinal directions, the
x-variant of the side-bundle router returns exactly one route and one new
port per input port on success; the y-variant returns exactly one new port
per input port but may skip the route of a port whose target coincides with
it, so it returns at most one route per input port. -/
theorem bundle_output_counts {E R : Type}
    (rf : Port → Port → ℝ → ℝ → Except E R) (ports : List Port)
    (hcard : ∀ p ∈ ports, Cardinal p) (x y : ℝ ⊕ String)
    (sep radius eb et el exl exr : ℝ) (y0b y0t x0l x0r : Option ℝ)
    (split : ℕ) (ssl : ℝ) (dxs dys : Option ℝ) :
    (∀ (rs : List R) (qs : List Port),
      route_ports_to_x rf ports x sep radius eb et el y0b y0t split ssl dxs
        dys = .ok (rs, qs) →
      rs.length = ports.length ∧ qs.length = ports.length) ∧
    (∀ (rs : List R) (qs : List Port),
      route_ports_to_y rf ports y sep radius x0l x0r el exl exr split ssl dxs
        dys = .ok (rs, qs) →
      qs.length = ports.length ∧ rs.length ≤ ports.length) :=
  ⟨fun rs qs h => route_ports_to_x_counts rf ports hcard x sep radius eb et el
      y0b y0t split ssl dxs dys rs qs h,
   fun rs qs h => route_ports_to_y_counts rf ports hcard y sep radius el exl
      exr x0l x0r split ssl dxs dys rs qs h⟩

/-- **C4 witness** — a successful east bundle of one east-facing port has one
route and one port; a successful y bundle of one south-facing coincident port
has one port and at most one route. -/
theorem bundle_output_counts_witness :
    (([()] : List Unit).length = ([pE] : List Port).length ∧
      ([(⟨"o1_new", (11, 0), 0, 1⟩ : Port)] : List Port).length =
        ([pE] : List Port).length) ∧
    (([pS] : List Port).length = ([pS] : List Port).length ∧
      ([] : List Unit).length ≤ ([pS] : List Port).length) := by
  constructor
  · exact (bundle_output_counts rfOk [pE]
      (by intro p hp; rw [List.mem_singleton] at hp; subst hp; exact Or.inl rfl)
      (.inr "east") (.inl 0) 10 10 0 0 0 0 0 none none none none 0 0.01 none
      none).1 _ _ route_x_east_ok
  · exact (bundle_output_counts rfOk [pS]
      (by intro p hp; rw [List.mem_singleton] at hp; subst hp
          exact Or.inr (Or.inr (Or.inr rfl)))
      (.inr "east") (.inl pS.center.2) 10 10 0 0 0 0 0 none none none none 0
      0.01 none none).2 _ _ (route_y_singleton_south rfOk pS rfl)

/-- **C4 counterexample** — the y-variant on a single south-facing cardinal
port routed to its own line returns one new port but zero routes: the route
list is shorter than the input list. -/
theorem bundle_counts_y_counterexample :
    route_ports_to_y rfOk [pS] (.inl 0) = .ok (([] : List Unit), [pS]) ∧
    ([] : List Unit).length ≠ ([pS] : List Port).length :=
  ⟨route_y_singleton_south rfOk pS rfl, by norm_num⟩

/-- **C9 (amended)** — only the y-axis variant skips a coincident port: in
its per-port loop a port whose computed target has the port's own position
contributes the new port but no route, and a singleton south-facing bundle
routed to its own y returns no routes and the unchanged port. -/
theorem coincident_skip_y {E R : Type} (rf : Port → Port → ℝ → ℝ → Except E R)
    (mk : Port → ℝ → Port) (radius : ℝ) (p : Port) (lane ssl : ℝ)
    (rest : List Item) (hco : (mk p lane).center = p.center)
    (q : Port) (h270 : q.orientation = 270) :
    processY rf mk radius ((p, lane, ssl) :: rest) =
      (match processY rf mk radius rest with
        | .error e => .error e
        | .ok (rs, qs) => .ok (rs, flipped (mk p lane) :: qs)) ∧
    route_ports_to_y rf [q] (.inl q.center.2) = .ok ([], [q]) := by
  constructor
  · have hcond : ((mk p lane).center.1 - p.center.1) ^ 2 +
        ((mk p lane).center.2 - p.center.2) ^ 2 < 1e-12 := by
      rw [hco]
      norm_num
    simp only [processY]
    rw [if_pos hcond]
  · exact route_y_singleton_south rf q h270

/-- **C9 witness** — instantiating the skip property with the identity
new-port map and a concrete coincident port. -/
theorem coincident_skip_y_witness :
    processY rfOk (fun q _ => q) 10 [(pE, 0, 0)] =
      (match processY rfOk (fun q _ => q) 10 ([] : List Item) with
        | .error e => .error e
        | .ok (rs, qs) => .ok (rs, flipped pE :: qs)) ∧
    route_ports_to_y rfOk [pS] (.inl pS.center.2) = .ok ([], [pS]) :=
  coincident_skip_y rfOk (fun q _ => q) 10 pE 0 0 [] rfl pS rfl

/-- **C9 counterexample** — the x-axis variant does not skip: the computed
target of the west-facing port `pW10` (position `(15 + -5, 0) = (10, 0)`,
orientation 180) coincides exactly with the port itself, yet a route is
synthesized for it. -/
theorem coincident_routed_x_counterexample :
    route_ports_to_x rfOk [pW10] (.inl 15) 10 10 0 0 (-5) none (some 0) 0
      0.01 none none = .ok ([()], [⟨"o1_new", (10, 0), 0, 1⟩]) ∧
    ((15 : ℝ) + -5, (0 : ℝ)) = pW10.center ∧ (180 : ℝ) = pW10.orientation :=
  ⟨route_x_coincident, by norm_num [pW10], rfl⟩

/-- **C5 (amended)** — the y-variant never surfaces the raw exception of the
injected routing function: every failure is either the router's own error or
the wrapped could-not-connect error naming the original and target port, and
a failure aborts the whole call with no partial result.  (The x-variant
propagates the raw inner exception; see the counterexample.) -/
theorem bundle_failure_wrapped_y {E R : Type}
    (rf : Port → Port → ℝ → ℝ → Except E R) (ports : List Port)
    (y : ℝ ⊕ String) (sep radius el exl exr : ℝ) (x0l x0r : Option ℝ)
    (split : ℕ) (ssl : ℝ) (dxs dys : Option ℝ) (e : BundleError E)
    (h : route_ports_to_y rf ports y sep radius x0l x0r el exl exr split ssl
      dxs dys = .error e) :
    (∃ s, e = .invalid s) ∨ ∃ a b e0, e = .couldNotConnect a b e0 :=
  route_ports_to_y_no_raw rf ports y sep radius el exl exr x0l x0r split ssl
    dxs dys e h

/-- **C5 witness** — a failing routing call on a north-facing port makes the
y-variant fail with the wrapped error naming both ports. -/
theorem bundle_failure_wrapped_y_witness :
    route_ports_to_y rfFail [pN5] (.inl 0) =
      .error (.couldNotConnect "o1" "o1" ()) ∧
    ((∃ s, (BundleError.couldNotConnect "o1" "o1" () : BundleError Unit) =
        .invalid s) ∨
      ∃ a b e0, (BundleError.couldNotConnect "o1" "o1" () : BundleError Unit) =
        .couldNotConnect a b e0) :=
  ⟨route_y_north_fail,
    bundle_failure_wrapped_y rfFail [pN5] (.inl 0) 10 10 0 0 0 none none 0
      0.01 none none _ route_y_north_fail⟩

/-- **C5 counterexample** — the x-variant does not wrap: with a failing
routing function the whole call fails with the raw inner exception, not a
descriptive error naming the ports. -/
theorem bundle_failure_raw_x_counterexample :
    route_ports_to_x rfFail [pE] (.inr "east") =
      .error (.inner ()) :=
  route_x_east_fail

/-- **C2 counterexample** — two east-facing (cardinal) ports one unit apart
routed to `"east"` with the default separation 10: both are forward ports
and keep their own lateral coordinates, so the two new ports' lane
coordinates differ by only 1. -/
theorem bundle_separation_counterexample :
    route_ports_to_x rfOk [pE, pE1] (.inr "east") =
      .ok ([(), ()],
        [⟨"o1_new", (11, 0), 0, 1⟩, ⟨"o2_new", (11, 1), 0, 1⟩]) ∧
    |(Port.mk "o1_new" (11, 0) 0 1).center.2 -
      (Port.mk "o2_new" (11, 1) 0 1).center.2| < 10 :=
  ⟨route_x_two_east, by norm_num⟩

/-- **C2 (amended)** — with the default lane-origin parameters, positive
separation and nonnegative radius, the new ports of a successful bundle call
on cardinal ports are pairwise at least `separation` apart along the target
edge, provided the ports that can act as forward ports (east/west-facing for
the x-variant, north/south-facing for the y-variant), which keep their own
lateral coordinates, are themselves pairwise `separation`-apart. -/
theorem bundle_separation {E R : Type} (rf : Port → Port → ℝ → ℝ → Except E R)
    (ports : List Port) (sep radius : ℝ) (hsep : 0 < sep) (hrad : 0 ≤ radius)
    (x y : ℝ ⊕ String) (split : ℕ) (ssl : ℝ)
    (hfwdx : List.Pairwise (fun p q =>
      ((p.orientation = 0 ∧ q.orientation = 0) ∨
        (p.orientation = 180 ∧ q.orientation = 180)) →
      sep ≤ |p.center.2 - q.center.2|) ports)
    (hfwdy : List.Pairwise (fun p q =>
      ((90 - (45 : ℝ) < p.orientation ∧ p.orientation < 90 + 45 ∧
          90 - (45 : ℝ) < q.orientation ∧ q.orientation < 90 + 45) ∨
        (270 - (45 : ℝ) < p.orientation ∧ p.orientation < 270 + 45 ∧
          270 - (45 : ℝ) < q.orientation ∧ q.orientation < 270 + 45)) →
      sep ≤ |p.center.1 - q.center.1|) ports) :
    (∀ (rs : List R) (qs : List Port),
      route_ports_to_x rf ports x sep radius 0 0 0 none none split ssl none
        none = .ok (rs, qs) →
      List.Pairwise (fun q1 q2 => sep ≤ |q1.center.2 - q2.center.2|) qs) ∧
    (∀ (rs : List R) (qs : List Port),
      route_ports_to_y rf ports y sep radius none none 0 0 0 split ssl none
        none = .ok (rs, qs) →
      List.Pairwise (fun q1 q2 => sep ≤ |q1.center.1 - q2.center.1|) qs) := by
  have hsymm2 : ∀ {a b : Port}, sep ≤ |a.center.2 - b.center.2| →
      sep ≤ |b.center.2 - a.center.2| := fun {a b} hab => by
    rwa [abs_sub_comm]
  have hsymm1 : ∀ {a b : Port}, sep ≤ |a.center.1 - b.center.1| →
      sep ≤ |b.center.1 - a.center.1| := fun {a b} hab => by
    rwa [abs_sub_comm]
  constructor
  · intro rs qs h
    simp only [route_ports_to_x] at h
    split at h
    · simp at h
    next hne =>
      have hpn : ports ≠ [] := by
        intro h0
        subst h0
        simp at hne
      have hys : (List.map (fun p => p.center.2) ports) ≠ [] := by
        intro h0
        exact hpn (by simpa using h0)
      have hmm := listMin_le_listMax (List.map (fun p => p.center.2) ports) hys
      have hms : sep ≤ max radius sep := le_max_right radius sep
      split at h
      · simp at h
      next xr hxr =>
        split at h
        · simp at h
        next keyNS fwd bwd angle hcfg =>
          split at h
          · simp at h
          next res hproc =>
            obtain ⟨rs0, qs0⟩ := res
            simp only [Except.ok.injEq, Prod.mk.injEq] at h
            obtain ⟨h1, h2⟩ := h
            subst h1
            subst h2
            obtain ⟨-, hmap⟩ := processX_ok _ _ _ _ _ _ hproc
            rw [hmap, List.pairwise_map]
            have hforward : (fwd = ports.filter fun p =>
                decide (p.orientation = 180)) ∨
                fwd = ports.filter fun p => decide (p.orientation = 0) := by
              split at hcfg
              · simp only [Option.some.injEq, Prod.mk.injEq] at hcfg
                exact Or.inl hcfg.2.1.symm
              · split at hcfg
                · simp only [Option.some.injEq, Prod.mk.injEq] at hcfg
                  exact Or.inr hcfg.2.1.symm
                · simp at hcfg
            have hfmem : ∀ p ∈ sortByKey (fun p => p.center.2) fwd,
                listMin (List.map (fun p => p.center.2) ports) ≤ p.center.2 ∧
                p.center.2 ≤ listMax (List.map (fun p => p.center.2) ports) := by
              intro p hp
              have hp2 := (sortByKey_mem _ _).mp hp
              have hpin : p ∈ ports := by
                rcases hforward with hfe | hfe <;>
                  · rw [hfe] at hp2
                    exact (List.mem_filter.mp hp2).1
              have hmem : p.center.2 ∈ List.map (fun p => p.center.2) ports :=
                List.mem_map_of_mem _ hpin
              exact ⟨listMin_le _ _ hmem, le_listMax _ _ hmem⟩
            have hfpair : List.Pairwise
                (fun p q => sep ≤ |p.center.2 - q.center.2|)
                (sortByKey (fun p => p.center.2) fwd) := by
              refine ((sortByKey_perm _ _).pairwise_iff hsymm2).mpr ?_
              rcases hforward with hfe | hfe <;> rw [hfe]
              · refine (hfwdx.sublist (List.filter_sublist _)).imp_of_mem ?_
                intro a b ha hb hab
                exact hab (Or.inr ⟨(mem_filter_orient ha).1,
                  (mem_filter_orient hb).1⟩)
              · refine (hfwdx.sublist (List.filter_sublist _)).imp_of_mem ?_
                intro a b ha hb hab
                exact hab (Or.inl ⟨(mem_filter_orient ha).1,
                  (mem_filter_orient hb).1⟩)
            refine List.Pairwise.imp (fun hab => hab)
              (pairwise_items sep hsep
                (listMin (List.map (fun p => p.center.2) ports))
                (listMax (List.map (fun p => p.center.2) ports)) _ _
                ?_ ?_ ?_ (fun p => p.center.2) _ _ _ _ _ _ _ _ _ hfmem hfpair)
            · linarith
            · linarith
            · linarith
  · intro rs qs h
    simp only [route_ports_to_y] at h
    split at h
    · simp at h
    next hne =>
      have hpn : ports ≠ [] := by
        intro h0
        subst h0
        simp at hne
      have hxs : (List.map (fun p => p.center.1) ports) ≠ [] := by
        intro h0
        exact hpn (by simpa using h0)
      have hmm := listMin_le_listMax (List.map (fun p => p.center.1) ports) hxs
      have hms : sep ≤ max radius sep := le_max_right radius sep
      split at h
      · simp at h
      next yv hyv =>
        split at h
        · simp at h
        next keyWE fwd bwd angle hcfg =>
          obtain ⟨-, hmap⟩ := processY_ok _ _ _ _ _ _ h
          rw [hmap, List.pairwise_map]
          have hforward : (fwd = ports.filter fun p =>
              decide (270 - (45 : ℝ) < p.orientation ∧
                p.orientation < 270 + 45)) ∨
              fwd = ports.filter fun p =>
                decide (90 - (45 : ℝ) < p.orientation ∧
                  p.orientation < 90 + 45) := by
            split at hcfg
            · simp only [Option.some.injEq, Prod.mk.injEq] at hcfg
              exact Or.inl hcfg.2.1.symm
            · split at hcfg
              · simp only [Option.some.injEq, Prod.mk.injEq] at hcfg
                exact Or.inr hcfg.2.1.symm
              · simp at hcfg
          have hfmem : ∀ p ∈ sortByKey (fun p => p.center.1) fwd,
              listMin (List.map (fun p => p.center.1) ports) ≤ p.center.1 ∧
              p.center.1 ≤ listMax (List.map (fun p => p.center.1) ports) := by
            intro p hp
            have hp2 := (sortByKey_mem _ _).mp hp
            have hpin : p ∈ ports := by
              rcases hforward with hfe | hfe <;>
                · rw [hfe] at hp2
                  exact (List.mem_filter.mp hp2).1
            have hmem : p.center.1 ∈ List.map (fun p => p.center.1) ports :=
              List.mem_map_of_mem _ hpin
            exact ⟨listMin_le _ _ hmem, le_listMax _ _ hmem⟩
          have hfpair : List.Pairwise
              (fun p q => sep ≤ |p.center.1 - q.center.1|)
              (sortByKey (fun p => p.center.1) fwd) := by
            refine ((sortByKey_perm _ _).pairwise_iff hsymm1).mpr ?_
            rcases hforward with hfe | hfe <;> rw [hfe]
            · refine (hfwdy.sublist (List.filter_sublist _)).imp_of_mem ?_
              intro a b ha hb hab
              have ha2 := of_decide_eq_true (List.mem_filter.mp ha).2
              have hb2 := of_decide_eq_true (List.mem_filter.mp hb).2
              exact hab (Or.inr ⟨ha2.1, ha2.2, hb2.1, hb2.2⟩)
            · refine (hfwdy.sublist (List.filter_sublist _)).imp_of_mem ?_
              intro a b ha hb hab
              have ha2 := of_decide_eq_true (List.mem_filter.mp ha).2
              have hb2 := of_decide_eq_true (List.mem_filter.mp hb).2
              exact hab (Or.inl ⟨ha2.1, ha2.2, hb2.1, hb2.2⟩)
          refine List.Pairwise.imp (fun hab => hab)
            (pairwise_items sep hsep
              (listMin (List.map (fun p => p.center.1) ports))
              (listMax (List.map (fun p => p.center.1) ports)) _ _
              ?_ ?_ ?_ (fun p => p.center.1) _ _ _ _ _ _ _ _ _ hfmem hfpair)
          · linarith [le_max_left radius sep]
          · linarith [le_max_left radius sep]
          · linarith [le_max_left radius sep]

/-- **C2 witness** — the separation theorem applied to a concrete
single-port east bundle. -/
theorem bundle_separation_witness :
    List.Pairwise (fun q1 q2 : Port => (10 : ℝ) ≤ |q1.center.2 - q2.center.2|)
      [(⟨"o1_new", (11, 0), 0, 1⟩ : Port)] :=
  (bundle_separation rfOk [pE] 10 10 (by norm_num) (by norm_num)
    (.inr "east") (.inr "east") 0 0.01 (by simp) (by simp)).1 [()] _
    route_x_east_ok

/-- **C3 (amended)** — `path_straight(port1, port2)` succeeds iff the rounded
orientation difference mod 360 is 0, 180 or 360 (ports parallel *or*
antiparallel), the rounded lateral offset is zero, and the rounded forward
offset is positive; every failure is the precondition error
(`InvalidPortGeometry`). -/
theorem path_straight_iff (p1 p2 : Port) :
    ((∃ pts, path_straight p1 p2 = .ok pts) ↔
      ((deltaOrientation p1 p2 = 0 ∨ deltaOrientation p1 p2 = 180 ∨
          deltaOrientation p1 p2 = 360) ∧
        yrelOf p1 p2 = 0 ∧ 0 < xrelOf p1 p2)) ∧
    ∀ e, path_straight p1 p2 = .error e → e = .invalidPortGeometry := by
  simp only [path_straight]
  split
  case isTrue h =>
    constructor
    · constructor
      · rintro ⟨pts, hpts⟩
        simp at hpts
      · rintro ⟨h1, h2, h3⟩
        rcases h with h | h | h
        · exact absurd h1 h
        · exact absurd h2 h
        · exact absurd h3 (not_lt.mpr h)
    · intro e he
      injection he with he'
      exact he'.symm
  case isFalse h =>
    push_neg at h
    constructor
    · exact ⟨fun _ => ⟨h.1, h.2.1, h.2.2⟩, fun _ => ⟨_, rfl⟩⟩
    · intro e he
      simp at he

/-- **C3 counterexample** — two ports facing the *same* direction
(orientation difference 0, not 180°) with zero lateral and positive forward
offset: `path_straight` succeeds, refuting that it succeeds only for
antiparallel ports. -/
theorem path_straight_parallel_succeeds :
    path_straight pE pE50 = .ok [((0 : ℝ), (0 : ℝ)), ((50 : ℝ), (0 : ℝ))] ∧
    deltaOrientation pE pE50 = 0 := by
  have hy : yrelOf pE pE50 = 0 := by
    show round3 (dot (((50, 0) : Pt) - ((0, 0) : Pt)) (rotatedBasis (0 : ℝ)).2) = 0
    rw [rotatedBasis_zero]
    have hd : dot (((50, 0) : Pt) - ((0, 0) : Pt)) ((0, 1) : Pt) = 0 := by
      norm_num [dot, Prod.mk_sub_mk]
    rw [hd, round3_zero]
  have hx : xrelOf pE pE50 = 50 := by
    show round3 (dot (((50, 0) : Pt) - ((0, 0) : Pt)) (rotatedBasis (0 : ℝ)).1) = 50
    rw [rotatedBasis_zero]
    have hd : dot (((50, 0) : Pt) - ((0, 0) : Pt)) ((1, 0) : Pt) = 50 := by
      norm_num [dot, Prod.mk_sub_mk]
    rw [hd, show (50 : ℝ) = ((50 : ℤ) : ℝ) by norm_num, round3_intCast]
  refine ⟨?_, delta_pE_pE50⟩
  simp only [path_straight]
  rw [delta_pE_pE50, hy, hx, if_neg (by norm_num)]
  rfl

/-- Helper: solving one component of the 2x2 ray-intersection system. -/
theorem line_inter_comp (x1 x2 N1 N2 a c D : ℝ) (hD : D ≠ 0)
    (h : N1 * a - N2 * c = (x2 - x1) * D) :
    x1 + N1 / D * a = x2 + N2 / D * c := by
  rw [← sub_eq_zero,
    show x1 + N1 / D * a - (x2 + N2 / D * c) =
      x1 - x2 + (N1 * a - N2 * c) / D by ring,
    h, mul_div_assoc, div_self hD, mul_one]
  ring

/-- **C3 witness** — antiparallel ports pointing at each other succeed
(applying the iff right-to-left at concrete ports), and a concrete
orthogonal failure yields the precondition error. -/
theorem path_straight_iff_witness :
    (∃ pts, path_straight pE pW50 = .ok pts) ∧
    PathErr.invalidPortGeometry = PathErr.invalidPortGeometry := by
  have hdelta : deltaOrientation pE pW50 = 180 := by
    show round3 |fmod ((0 : ℝ) - 180) 360| = 180
    rw [fmod_360_neg ((0 : ℝ) - 180) (by norm_num) (by norm_num),
      show (0 : ℝ) - 180 + 360 = 180 by norm_num,
      abs_of_nonneg (by norm_num : (0 : ℝ) ≤ 180),
      show (180 : ℝ) = ((180 : ℤ) : ℝ) by norm_num, round3_intCast]
  have hy : yrelOf pE pW50 = 0 := by
    show round3 (dot (((50, 0) : Pt) - ((0, 0) : Pt)) (rotatedBasis (0 : ℝ)).2) = 0
    rw [rotatedBasis_zero,
      show dot (((50, 0) : Pt) - ((0, 0) : Pt)) ((0, 1) : Pt) = 0 by
        norm_num [dot, Prod.mk_sub_mk],
      round3_zero]
  have hx : xrelOf pE pW50 = 50 := by
    show round3 (dot (((50, 0) : Pt) - ((0, 0) : Pt)) (rotatedBasis (0 : ℝ)).1) = 50
    rw [rotatedBasis_zero,
      show dot (((50, 0) : Pt) - ((0, 0) : Pt)) ((1, 0) : Pt) = 50 by
        norm_num [dot, Prod.mk_sub_mk],
      show (50 : ℝ) = ((50 : ℤ) : ℝ) by norm_num, round3_intCast]
  have herr : path_straight pE pNsw = .error .invalidPortGeometry := by
    have hdelta2 : deltaOrientation pE pNsw = 270 := by
      show round3 |fmod ((0 : ℝ) - 90) 360| = 270
      rw [fmod_360_neg ((0 : ℝ) - 90) (by norm_num) (by norm_num),
        show (0 : ℝ) - 90 + 360 = 270 by norm_num,
        abs_of_nonneg (by norm_num : (0 : ℝ) ≤ 270),
        show (270 : ℝ) = ((270 : ℤ) : ℝ) by norm_num, round3_intCast]
    simp only [path_straight]
    rw [hdelta2, if_pos (by norm_num)]
  exact ⟨(path_straight_iff pE pW50).1.mpr
      ⟨Or.inr (Or.inl hdelta), hy, by rw [hx]; norm_num⟩,
    (path_straight_iff pE pNsw).2 _ herr⟩

/-- **C6 (amended)** — `path_V` fails with the singular-system error exactly
when the two forward direction vectors are parallel (vanishing cross
product); for non-parallel directions it returns a 3-point path whose middle
point is the intersection of the two ports' forward *lines*
(`center + t·forward` with `t` of either sign). -/
theorem path_V_cases (p1 p2 : Port) :
    (cross (rotatedBasis p1.orientation).1 (rotatedBasis p2.orientation).1 = 0 →
      path_V p1 p2 = .error .singularMatrix) ∧
    (cross (rotatedBasis p1.orientation).1 (rotatedBasis p2.orientation).1 ≠ 0 →
      ∃ t s : ℝ,
        path_V p1 p2 = .ok [p1.center,
          p1.center + t • (rotatedBasis p1.orientation).1, p2.center] ∧
        p1.center + t • (rotatedBasis p1.orientation).1 =
          p2.center + s • (rotatedBasis p2.orientation).1) := by
  simp only [path_V, cross]
  generalize (rotatedBasis p1.orientation).1 = e1
  generalize (rotatedBasis p2.orientation).1 = e2
  generalize p1.center = c1
  generalize p2.center = c2
  obtain ⟨a, b⟩ := e1
  obtain ⟨c, d⟩ := e2
  obtain ⟨x1, y1⟩ := c1
  obtain ⟨x2, y2⟩ := c2
  simp only [Prod.mk_sub_mk]
  constructor
  · intro h
    rw [if_pos (by linarith)]
  · intro h
    have hne : a * (-1 * d) - -1 * c * b ≠ 0 := by
      intro h0
      exact h (by linarith)
    rw [if_neg hne]
    refine ⟨_, (a * (y2 - y1) - b * (x2 - x1)) / (a * (-1 * d) - -1 * c * b),
      rfl, ?_⟩
    rw [Prod.ext_iff]
    constructor
    · simp only [Prod.fst_add, Prod.smul_mk, smul_eq_mul]
      exact line_inter_comp _ _ _ _ _ _ _ hne (by ring)
    · simp only [Prod.snd_add, Prod.smul_mk, smul_eq_mul]
      exact line_inter_comp _ _ _ _ _ _ _ hne (by ring)

/-- **C6 witness** — a parallel pair (0° and 180°) fails with the singular
error; a perpendicular pair (0° and 90°) gets a 3-point path through a point
of both forward lines. -/
theorem path_V_cases_witness :
    path_V pE pW50 = .error .singularMatrix ∧
    (∃ t s : ℝ,
      path_V pE pNsw = .ok [pE.center,
        pE.center + t • (rotatedBasis pE.orientation).1, pNsw.center] ∧
      pE.center + t • (rotatedBasis pE.orientation).1 =
        pNsw.center + s • (rotatedBasis pNsw.orientation).1) := by
  constructor
  · refine (path_V_cases pE pW50).1 ?_
    rw [show pE.orientation = (0 : ℝ) from rfl,
      show pW50.orientation = (180 : ℝ) from rfl, rotatedBasis_zero,
      rotatedBasis_180]
    norm_num [cross]
  · refine (path_V_cases pE pNsw).2 ?_
    rw [show pE.orientation = (0 : ℝ) from rfl,
      show pNsw.orientation = (90 : ℝ) from rfl, rotatedBasis_zero,
      rotatedBasis_90]
    norm_num [cross]

/-- **C6 counterexample** — for non-parallel ports the middle point need not
lie on the forward *rays*: with port 1 at the origin facing 0° and port 2 at
(-10,-10) facing 90°, `path_V` succeeds but its middle point (-10,0) is
behind port 1, so it is on no point of port 1's forward ray. -/
theorem path_V_ray_counterexample :
    cross (rotatedBasis pE.orientation).1 (rotatedBasis pNsw.orientation).1 ≠ 0 ∧
    path_V pE pNsw =
      .ok [((0 : ℝ), (0 : ℝ)), ((-10 : ℝ), (0 : ℝ)), ((-10 : ℝ), (-10 : ℝ))] ∧
    ¬∃ t : ℝ, 0 ≤ t ∧
      ((0 : ℝ), (0 : ℝ)) + t • (rotatedBasis pE.orientation).1 =
        ((-10 : ℝ), (0 : ℝ)) := by
  have h0 : pE.orientation = (0 : ℝ) := rfl
  have h90 : pNsw.orientation = (90 : ℝ) := rfl
  refine ⟨?_, ?_, ?_⟩
  · rw [h0, h90, rotatedBasis_zero, rotatedBasis_90]
    norm_num [cross]
  · simp only [path_V]
    rw [h0, h90, rotatedBasis_zero, rotatedBasis_90,
      show pE.center = ((0 : ℝ), (0 : ℝ)) from rfl,
      show pNsw.center = ((-10 : ℝ), (-10 : ℝ)) from rfl]
    norm_num [Prod.mk_sub_mk, Prod.mk_add_mk, Prod.smul_mk, Prod.ext_iff]
  · rintro ⟨t, ht, heq⟩
    rw [h0, rotatedBasis_zero] at heq
    simp only [Prod.mk_add_mk, Prod.smul_mk, smul_eq_mul, Prod.mk.injEq] at heq
    have : t = -10 := by linarith [heq.1]
    linarith

/-- **C1** (amended): for ports whose relative orientation is an *exact*
multiple of 90 degrees and any radius `r > 0`, `path_manhattan` returns a
waypoint path in which every intermediate segment has length at least `r`.
(The claim's own hypothesis — rounded relative orientation in
{0, 90, 180, 270, 360} — is weaker and admits counterexamples, see
`manhattan_min_segment_counterexample`.) -/
theorem manhattan_min_segment (p1 p2 : Port) (r : ℝ) (k : ℤ) (hr : 0 < r)
    (hk : p2.orientation = p1.orientation + 90 * (k : ℝ)) :
    ∃ pts, path_manhattan p1 p2 r = .ok pts ∧ interSegsGE pts r := by
  obtain ⟨q, j, hqj, hj0, hj4⟩ : ∃ q j : ℤ, k = 4 * q + j ∧ 0 ≤ j ∧ j < 4 :=
    ⟨k / 4, k % 4, by omega, by omega, by omega⟩
  have hor' : p2.orientation = p1.orientation + 90 * ((4 * q + j : ℤ) : ℝ) := by
    rw [hk, hqj]
  have horel : orelOf p1 p2 = 90 * (j : ℝ) := by
    have hsub : p2.orientation - p1.orientation = 90 * ((4 * q + j : ℤ) : ℝ) := by
      rw [hor']; ring
    rw [orelOf, hsub, round3_fmod_90 q j hj0 hj4]
  have hX : |xrelOf p1 p2 - dot (p2.center - p1.center)
      ((cosd p1.orientation, sind p1.orientation) : Pt)| ≤ 1 / 2000 := by
    rw [xrelOf]
    exact round3_abs_sub _
  have hY : |yrelOf p1 p2 - dot (p2.center - p1.center)
      ((-sind p1.orientation, cosd p1.orientation) : Pt)| ≤ 1 / 2000 := by
    rw [yrelOf]
    exact round3_abs_sub _
  have hj' : j = 0 ∨ j = 1 ∨ j = 2 ∨ j = 3 := by omega
  rcases hj' with hj' | hj' | hj' | hj'
  · -- same orientation: C or U path
    subst hj'
    norm_num at horel
    have hd : deltaOrientation p1 p2 = 0 := by
      have h := delta_quarter p1 p2 (-q) 0 (by norm_num) (by norm_num)
        (by rw [hor']; push_cast; ring)
      rw [h]; norm_num
    simp only [path_manhattan]
    simp only [horel]
    rw [if_neg (by norm_num), if_neg (by norm_num : ¬((0 : ℝ) = 90 ∨ (0 : ℝ) = 270)),
      if_neg (by norm_num : ¬((0 : ℝ) = 180 ∧ yrelOf p1 p2 = 0 ∧ xrelOf p1 p2 > 0))]
    by_cases hyc : |yrelOf p1 p2| < 2 * (r + 0.1)
    · rw [if_pos (Or.inr hyc), if_neg (by norm_num : ¬(0 : ℝ) = 180)]
      exact path_C_inter_0 p1 p2 q _ _ _ r hor' (cBoundLf r _ hr)
        (cBoundX0 r _ _ hr hX) (cBoundY r _ _ hr hY)
    · rw [if_neg (not_or.mpr ⟨fun hcon => absurd hcon.1 (by norm_num), hyc⟩)]
      exact path_U_inter p1 p2 _ r (Or.inl hd) (uBound r _ _ hr hY hyc)
  · -- +90: L or J path
    subst hj'
    norm_num at horel
    simp only [path_manhattan]
    simp only [horel]
    rw [if_neg (by norm_num), if_pos (by norm_num : True ∨ (90 : ℝ) = 270)]
    by_cases hL : (True ∧ yrelOf p1 p2 < -1 * (r + 0.1) ∨
        (90 : ℝ) = 270 ∧ yrelOf p1 p2 > r + 0.1) ∧ xrelOf p1 p2 > r + 0.1
    · rw [if_pos hL]
      have hd : deltaOrientation p1 p2 = 270 := by
        have h := delta_quarter p1 p2 (-q - 1) 3 (by norm_num) (by norm_num)
          (by rw [hor']; push_cast; ring)
        rw [h]; norm_num
      simp only [path_L]
      simp only [hd]
      rw [if_neg (by norm_num)]
      exact ⟨_, rfl, interSegsGE_short _ _ (by simp)⟩
    · rw [if_neg hL, if_neg (by norm_num : ¬(90 : ℝ) = 270)]
      exact path_J_inter_90 p1 p2 q _ _ r hor' (jBoundL2_90 r _ _ hr hY)
        (jBoundL1 r _ _ hr hX)
  · -- opposite orientation: straight, C or U path
    subst hj'
    norm_num at horel
    have hd : deltaOrientation p1 p2 = 180 := by
      have h := delta_quarter p1 p2 (-q - 1) 2 (by norm_num) (by norm_num)
        (by rw [hor']; push_cast; ring)
      rw [h]; norm_num
    simp only [path_manhattan]
    simp only [horel]
    rw [if_neg (by norm_num), if_neg (by norm_num : ¬((180 : ℝ) = 90 ∨ (180 : ℝ) = 270))]
    by_cases hst : True ∧ yrelOf p1 p2 = 0 ∧ xrelOf p1 p2 > 0
    · rw [if_pos hst]
      simp only [path_straight]
      simp only [hd]
      rw [if_neg (by push_neg; exact ⟨by norm_num, hst.2.1, hst.2.2⟩)]
      exact ⟨_, rfl, interSegsGE_short _ _ (by simp)⟩
    · rw [if_neg hst]
      by_cases hCU : True ∧ xrelOf p1 p2 ≤ 2 * (r + 0.1) ∨
          |yrelOf p1 p2| < 2 * (r + 0.1)
      · rw [if_pos hCU, if_pos trivial]
        exact path_C_inter_180 p1 p2 q _ _ _ r hor' (cBoundLf r _ hr)
          (cBoundX180 r _ _ hr hX) (cBoundY r _ _ hr hY)
      · rw [if_neg hCU]
        have hyc : ¬|yrelOf p1 p2| < 2 * (r + 0.1) := fun hcon => hCU (Or.inr hcon)
        exact path_U_inter p1 p2 _ r (Or.inr hd) (uBound r _ _ hr hY hyc)
  · -- +270: L or J path
    subst hj'
    norm_num at horel
    simp only [path_manhattan]
    simp only [horel]
    rw [if_neg (by norm_num), if_pos (by norm_num : (270 : ℝ) = 90 ∨ True)]
    by_cases hL : ((270 : ℝ) = 90 ∧ yrelOf p1 p2 < -1 * (r + 0.1) ∨
        True ∧ yrelOf p1 p2 > r + 0.1) ∧ xrelOf p1 p2 > r + 0.1
    · rw [if_pos hL]
      have hd : deltaOrientation p1 p2 = 90 := by
        have h := delta_quarter p1 p2 (-q - 1) 1 (by norm_num) (by norm_num)
          (by rw [hor']; push_cast; ring)
        rw [h]; norm_num
      simp only [path_L]
      simp only [hd]
      rw [if_neg (by norm_num)]
      exact ⟨_, rfl, interSegsGE_short _ _ (by simp)⟩
    · rw [if_neg hL, if_pos trivial]
      exact path_J_inter_270 p1 p2 q _ _ r hor' (jBoundL2_270 r _ _ hr hY)
        (jBoundL1 r _ _ hr hX)

/-- **C1 witness** — a north-facing port one exact quarter turn from the
east-facing origin port, radius 5: the manhattan path exists and every
intermediate segment is at least 5 long. -/
theorem manhattan_min_segment_witness :
    pNsw.orientation = pE.orientation + 90 * ((1 : ℤ) : ℝ) ∧ (0 : ℝ) < 5 ∧
    ∃ pts, path_manhattan pE pNsw 5 = .ok pts ∧ interSegsGE pts 5 :=
  ⟨by norm_num [pNsw, pE], by norm_num,
    manhattan_min_segment pE pNsw 5 1 (by norm_num) (by norm_num [pNsw, pE])⟩

/-- **C1 counterexample** — the claim's hypothesis only constrains the
*rounded* relative orientation: the port `pMh2` (orientation 90.0004, five
million units east) has rounded relative orientation 90 with respect to `pE`,
yet `path_manhattan pE pMh2 10` succeeds with a J-path whose first
intermediate segment is shorter than the radius 10. -/
theorem manhattan_min_segment_counterexample :
    orelOf pE pMh2 = 90 ∧ (0 : ℝ) < 10 ∧
    ∃ pts, path_manhattan pE pMh2 10 = .ok pts ∧ ¬ interSegsGE pts 10 := by
  have horel : orelOf pE pMh2 = 90 := by
    rw [orelOf, show pMh2.orientation - pE.orientation = (90.0004 : ℝ) from by
        norm_num [pMh2, pE],
      fmod_360_self _ (by norm_num) (by norm_num),
      abs_of_nonneg (by norm_num : (0 : ℝ) ≤ 90.0004),
      round3_eq_div _ 90000 (by push_cast; norm_num) (by push_cast; norm_num)]
    norm_num
  have hdelta : deltaOrientation pE pMh2 = 270 := by
    rw [deltaOrientation, show pE.orientation - pMh2.orientation
        = (-90.0004 : ℝ) from by norm_num [pMh2, pE],
      fmod_eq (-90.0004 : ℝ) 360 (-1) (by norm_num) (by push_cast; norm_num)
        (by push_cast; norm_num),
      show (-90.0004 : ℝ) - 360 * ((-1 : ℤ) : ℝ) = (269.9996 : ℝ) by
        push_cast; norm_num,
      abs_of_nonneg (by norm_num : (0 : ℝ) ≤ (269.9996 : ℝ)),
      round3_eq_div _ 270000 (by push_cast; norm_num) (by push_cast; norm_num)]
    norm_num
  have hxrel : xrelOf pE pMh2 = 5000000 := by
    rw [xrelOf, show pE.orientation = (0 : ℝ) from rfl, rotatedBasis_zero,
      show pMh2.center - pE.center = (((5000000 : ℝ), (20 : ℝ)) : Pt) from by
        norm_num [pMh2, pE, Prod.mk_sub_mk]]
    norm_num [dot]
    rw [show (5000000 : ℝ) = ((5000000 : ℤ) : ℝ) by norm_num, round3_intCast]
  have hyrel : yrelOf pE pMh2 = 20 := by
    rw [yrelOf, show pE.orientation = (0 : ℝ) from rfl, rotatedBasis_zero,
      show pMh2.center - pE.center = (((5000000 : ℝ), (20 : ℝ)) : Pt) from by
        norm_num [pMh2, pE, Prod.mk_sub_mk]]
    norm_num [dot]
    rw [show (20 : ℝ) = ((20 : ℤ) : ℝ) by norm_num, round3_intCast]
  refine ⟨horel, by norm_num, ?_⟩
  simp only [path_manhattan]
  simp only [horel, hxrel, hyrel]
  rw [if_neg (by norm_num), if_pos (by norm_num : True ∨ (90 : ℝ) = 270),
    if_neg (by norm_num : ¬((True ∧ (20 : ℝ) < -1 * (10 + 0.1) ∨
      (90 : ℝ) = 270 ∧ (20 : ℝ) > 10 + 0.1) ∧ (5000000 : ℝ) > 10 + 0.1)),
    if_neg (by norm_num : ¬(90 : ℝ) = 270),
    if_neg (show ¬|(10 : ℝ) + 0.1 + 1 * 20| < 2 * (10 + 0.1) by
      rw [abs_of_nonneg (by norm_num)]; norm_num),
    if_neg (show ¬|(10 : ℝ) + 0.1 - 5000000| < 2 * (10 + 0.1) by
      rw [abs_of_nonpos (by norm_num)]; norm_num)]
  simp only [path_J]
  simp only [hdelta]
  rw [if_neg (by norm_num),
    show (rotatedBasis pMh2.orientation).1
      = ((cosd 90.0004, sind 90.0004) : Pt) from rfl,
    show (rotatedBasis pE.orientation).1 = (((1 : ℝ), (0 : ℝ)) : Pt) from by
      rw [show pE.orientation = (0 : ℝ) from rfl, rotatedBasis_zero],
    show pE.center = (((0 : ℝ), (0 : ℝ)) : Pt) from rfl,
    show pMh2.center = (((5000000 : ℝ), (20 : ℝ)) : Pt) from rfl]
  set P2 : Pt := (((0 : ℝ), (0 : ℝ)) : Pt)
    + ((10 : ℝ) + 0.1) • (((1 : ℝ), (0 : ℝ)) : Pt) with hP2
  set D0 : ℝ := dot ((((5000000 : ℝ), (20 : ℝ)) : Pt)
      + ((10 : ℝ) + 0.1) • ((cosd 90.0004, sind 90.0004) : Pt) - P2)
    ((cosd 90.0004, sind 90.0004) : Pt) with hD0
  refine ⟨_, rfl, fun hcon =>
    absurd (hcon 1 (le_refl 1) (by simp)) (not_le.mpr ?_)⟩
  have hseg : vlen (seg [(((0 : ℝ), (0 : ℝ)) : Pt), P2,
      P2 + D0 • ((cosd 90.0004, sind 90.0004) : Pt),
      (((5000000 : ℝ), (20 : ℝ)) : Pt)
        + ((10 : ℝ) + 0.1) • ((cosd 90.0004, sind 90.0004) : Pt),
      (((5000000 : ℝ), (20 : ℝ)) : Pt)] 1) = |D0| := by
    show vlen ((P2 + D0 • ((cosd 90.0004, sind 90.0004) : Pt)) - P2) = |D0|
    rw [add_sub_cancel_left]
    exact vlen_smul_fwd _ _
  rw [hseg, hD0, hP2]
  show |(5000000 + (10 + 0.1) * cosd 90.0004 - (0 + (10 + 0.1) * 1)) * cosd 90.0004
    + (20 + (10 + 0.1) * sind 90.0004 - (0 + (10 + 0.1) * 0)) * sind 90.0004| < 10
  rw [cosd_90_0004, sind_90_0004]
  have hs_lo := sin_tiny_lo
  have hs_hi := sin_tiny_hi
  have hc_lo := cos_tiny_lo
  have hc_hi : Real.cos (π / 450000) ≤ 1 := Real.cos_le_one _
  rw [abs_lt]
  constructor
  · nlinarith [hs_lo, hs_hi, hc_lo, hc_hi,
      mul_pos (show (0 : ℝ) < Real.sin (π / 450000) by linarith)
        (show (0 : ℝ) < Real.sin (π / 450000) by linarith),
      mul_pos (show (0 : ℝ) < Real.cos (π / 450000) by linarith)
        (show (0 : ℝ) < Real.cos (π / 450000) by linarith)]
  · nlinarith [hs_lo, hs_hi, hc_lo, hc_hi,
      mul_pos (show (0 : ℝ) < Real.sin (π / 450000) by linarith)
        (show (0 : ℝ) < Real.sin (π / 450000) by linarith),
      mul_nonneg (show (0 : ℝ) ≤ Real.cos (π / 450000) by linarith)
        (show (0 : ℝ) ≤ 1 - Real.cos (π / 450000) by linarith)]

end Routing
